import Mathlib

/-!
# LeadershipBoard: the aggregation pipeline of `app.js`

A shallow embedding of the data aggregation code of `src/app.js` and the
properties its specification states about it.

Conventions of the embedding.

* The global `dashboardData` is passed explicitly: a function that mutates it
  takes the old value and returns the new one.
* A plain JavaScript object used as a map is a `JsObject`: its own properties
  in creation order.  `Object.keys` / `Object.values` enumerate array-index
  keys first, in ascending numeric order, and the other keys in creation
  order, as the language prescribes.
* A read `contributors[username]` goes through the prototype chain: a username
  that is no own property but names a member of `Object.prototype` (such as
  `constructor`) reads that inherited member, which is truthy.  The numeric
  objects `activityData` and `languages` are read by own property: their keys
  are calendar dates and the language names of the API, never such a name.
* Counters are natural numbers (they count records, far below `2^53`, where
  JavaScript number arithmetic is exact).
* `fetch` is a function from the request (URL and headers) to its outcome:
  either the promise rejects (transport error) or a response arrives, with a
  status and a decoded body.
-/

namespace LeadershipBoard

/-! ## JavaScript objects used as maps -/

/-- Own properties of a plain object, in creation order. -/
abbrev JsObject (α : Type) := List (String × α)

namespace JsObject

/-- Own-property read: `none` when `key` is no own property. -/
def get {α : Type} : JsObject α → String → Option α
  | [], _ => none
  | (k, v) :: rest, key => if k = key then some v else get rest key

/-- Property write `o[key] = v`: overwrites in place, or creates the property last. -/
def set {α : Type} : JsObject α → String → α → JsObject α
  | [], key, v => [(key, v)]
  | (k, w) :: rest, key, v => if k = key then (k, v) :: rest else (k, w) :: set rest key v

/-- In-place change of an own property, `o[key] = f(o[key])`, as done by
`o[key].field++` and `o[key]++`.  When `key` is no own property the object is
left as it is: the callers make sure that `o[key]` is not `undefined`, and a
`o[key].field++` on an inherited member writes to that member, not to `o`. -/
def update {α : Type} : JsObject α → String → (α → α) → JsObject α
  | [], _, _ => []
  | (k, w) :: rest, key, f => if k = key then (k, f w) :: rest else (k, w) :: update rest key f

/-- Canonical decimal numeral: no sign, no leading zero. -/
def isCanonicalNumeric : List Char → Bool
  | [] => false
  | [c] => c.isDigit
  | c :: rest => c.isDigit && c != '0' && rest.all Char.isDigit

/-- Value of a decimal numeral. -/
def numericValue (cs : List Char) : Nat :=
  cs.foldl (fun acc c => 10 * acc + (c.toNat - '0'.toNat)) 0

/-- The array index a property key denotes, if any: a canonical numeral below `2^32 - 1`. -/
def arrayIndex? (key : String) : Option Nat :=
  if isCanonicalNumeric key.toList ∧ numericValue key.toList < 2 ^ 32 - 1 then
    some (numericValue key.toList)
  else none

/-- Own properties in enumeration order: array-index keys ascending, then the
other keys in creation order. -/
def ownProperties {α : Type} (o : JsObject α) : List (String × α) :=
  (o.filter (fun kv => (arrayIndex? kv.1).isSome)).insertionSort
      (fun a b => (arrayIndex? a.1).getD 0 ≤ (arrayIndex? b.1).getD 0)
    ++ o.filter (fun kv => (arrayIndex? kv.1).isNone)

end JsObject

/-- `Object.keys(o)`. -/
def Object.keys {α : Type} (o : JsObject α) : List String :=
  (JsObject.ownProperties o).map Prod.fst

/-- `Object.values(o)`. -/
def Object.values {α : Type} (o : JsObject α) : List α :=
  (JsObject.ownProperties o).map Prod.snd

/-- The names every plain object inherits from `Object.prototype`. -/
def Object.prototypeNames : List String :=
  ["constructor", "hasOwnProperty", "isPrototypeOf", "propertyIsEnumerable",
   "toLocaleString", "toString", "valueOf", "__proto__", "__defineGetter__",
   "__defineSetter__", "__lookupGetter__", "__lookupSetter__"]

/-- What a read `o[key]` of a plain object finds: an own property, a member
inherited from `Object.prototype`, or `undefined`. -/
inductive Property (α : Type) where
  | own (value : α)
  | inherited
  | undefined

/-- The read `o[key]` through the prototype chain. -/
def JsObject.read {α : Type} (o : JsObject α) (key : String) : Property α :=
  match o.get key with
  | some value => .own value
  | none => if key ∈ Object.prototypeNames then .inherited else .undefined

/-- JavaScript `!x` for a numeric property read: `undefined` and `0` are falsy. -/
def isFalsy : Option Nat → Bool
  | none => true
  | some n => n == 0

/-! ## Data model -/

/-- Entry of `dashboardData.contributors`, as created by `addContributor`. -/
structure Contributor where
  username : String
  avatarUrl : String
  commits : Nat
  prs : Nat
  reviews : Nat
  issues : Nat
  score : Nat
deriving DecidableEq, Repr

/-- The global `dashboardData`. -/
structure DashboardData where
  contributors : JsObject Contributor
  totalCommits : Nat
  totalPRs : Nat
  totalReviews : Nat
  totalIssues : Nat
  activityData : JsObject Nat
  languages : JsObject Nat
deriving DecidableEq, Repr

/-- A user object of the API (`author`, `user`, an entry of `requested_reviewers`). -/
structure User where
  login : String
  avatar_url : String
deriving DecidableEq, Repr

/-- The `commit.author` object of a commit record: `date` is the author timestamp,
an ISO-8601 UTC instant as the API supplies it. -/
structure GitAuthor where
  date : String
deriving DecidableEq, Repr

/-- The `commit` object of a commit record. -/
structure GitCommit where
  author : GitAuthor
deriving DecidableEq, Repr

/-- A commit record; `author` is `null` when the API resolves no account. -/
structure Commit where
  author : Option User
  commit : GitCommit
deriving DecidableEq, Repr

/-- The `pull_request` back-reference object some records carry. -/
structure PullRequestRef where
  url : String
deriving DecidableEq, Repr

/-- A pull-request record. -/
structure PullRequest where
  user : Option User
  pull_request : Option PullRequestRef
  requested_reviewers : Option (List User)
deriving DecidableEq, Repr

/-- An issue record. -/
structure Issue where
  user : Option User
  pull_request : Option PullRequestRef
deriving DecidableEq, Repr

/-- A repository descriptor. -/
structure Repository where
  name : String
deriving DecidableEq, Repr

/-- The snapshot `resetDashboardData` installs. -/
def resetDashboardData : DashboardData :=
  { contributors := [], totalCommits := 0, totalPRs := 0, totalReviews := 0,
    totalIssues := 0, activityData := [], languages := [] }

/-! ## Aggregation -/

/-- `addContributor(username, avatarUrl)`: the test `!contributors[username]`
holds only when the read is `undefined`; a contributor entry and an inherited
member are both truthy. -/
def addContributor (d : DashboardData) (username avatarUrl : String) : DashboardData :=
  match d.contributors.read username with
  | .own _ => d
  | .inherited => d
  | .undefined =>
    let contributor : Contributor :=
      { username := username, avatarUrl := avatarUrl,
        commits := 0, prs := 0, reviews := 0, issues := 0, score := 0 }
    { d with contributors := d.contributors.set username contributor }

/-- `date.toISOString().split('T')[0]` for the author timestamp of a commit.
The API supplies UTC instants of the form `YYYY-MM-DDTHH:MM:SSZ`; for those
`new Date(s).toISOString()` is `s` with the milliseconds added, and the day
key is the calendar-date part in front of the `T`.  Other strings (another
time zone, no date at all) are outside this model. -/
def dayKey (date : String) : String :=
  String.mk (date.toList.takeWhile (fun c => c != 'T'))

/-- Body of the `forEach` callback of `processCommits`. -/
def processCommit (d : DashboardData) (commit : Commit) : DashboardData :=
  match commit.author with
  | none => d
  | some a =>
    let author := a.login
    let date := commit.commit.author.date
    let d1 := addContributor d author a.avatar_url
    let d2 := { d1 with
      contributors := d1.contributors.update author (fun c => { c with commits := c.commits + 1 }) }
    let key := dayKey date
    let d3 := if isFalsy (d2.activityData.get key) then
        { d2 with activityData := d2.activityData.set key 0 } else d2
    { d3 with activityData := d3.activityData.update key (fun n => n + 1) }

/-- `processCommits(commits)`. -/
def processCommits (d : DashboardData) (commits : List Commit) : DashboardData :=
  commits.foldl processCommit { d with totalCommits := d.totalCommits + commits.length }

/-- Body of the inner `forEach` over `pr.requested_reviewers`. -/
def processReviewer (d : DashboardData) (reviewer : User) : DashboardData :=
  let d1 := addContributor d reviewer.login reviewer.avatar_url
  let d2 := { d1 with
    contributors :=
      d1.contributors.update reviewer.login (fun c => { c with reviews := c.reviews + 1 }) }
  { d2 with totalReviews := d2.totalReviews + 1 }

/-- Body of the `forEach` callback of `processPullRequests`. -/
def processPullRequest (d : DashboardData) (pr : PullRequest) : DashboardData :=
  match pr.user with
  | none => d
  | some u =>
    let author := u.login
    let d1 := addContributor d author u.avatar_url
    let d2 := { d1 with
      contributors := d1.contributors.update author (fun c => { c with prs := c.prs + 1 }) }
    match pr.requested_reviewers with
    | none => d2
    | some reviewers => reviewers.foldl processReviewer d2

/-- `processPullRequests(prs)`. -/
def processPullRequests (d : DashboardData) (prs : List PullRequest) : DashboardData :=
  let actualPRs := prs.filter (fun pr => pr.pull_request.isNone || pr.pull_request.isSome)
  actualPRs.foldl processPullRequest { d with totalPRs := d.totalPRs + actualPRs.length }

/-- Body of the `forEach` callback of `processIssues`. -/
def processIssue (d : DashboardData) (issue : Issue) : DashboardData :=
  match issue.user with
  | none => d
  | some u =>
    let author := u.login
    let d1 := addContributor d author u.avatar_url
    { d1 with
      contributors := d1.contributors.update author (fun c => { c with issues := c.issues + 1 }) }

/-- `processIssues(issues)`. -/
def processIssues (d : DashboardData) (issues : List Issue) : DashboardData :=
  let actualIssues := issues.filter (fun issue => issue.pull_request.isNone)
  actualIssues.foldl processIssue { d with totalIssues := d.totalIssues + actualIssues.length }

/-- Body of the `forEach` callback of `processLanguages`, for the language map `languages`. -/
def processLanguage (languages : JsObject Nat) (d : DashboardData) (lang : String) :
    DashboardData :=
  let d1 := if isFalsy (d.languages.get lang) then
      { d with languages := d.languages.set lang 0 } else d
  { d1 with languages := d1.languages.update lang (fun n => n + (languages.get lang).getD 0) }

/-- `processLanguages(languages)`. -/
def processLanguages (d : DashboardData) (languages : JsObject Nat) : DashboardData :=
  (Object.keys languages).foldl (processLanguage languages) d

/-- Body of the `forEach` callback of `calculateContributorScores`. -/
def rescore (contributor : Contributor) : Contributor :=
  { contributor with
    score :=
      (contributor.commits * 1) +
      (contributor.prs * 5) +
      (contributor.reviews * 3) +
      (contributor.issues * 2) }

/-- `calculateContributorScores()`: `Object.values` hands out the entries
themselves, so each is rewritten where it stands. -/
def calculateContributorScores (d : DashboardData) : DashboardData :=
  { d with contributors := d.contributors.map (fun kv => (kv.1, rescore kv.2)) }

/-! ## Ranking -/

/-- `array.sort(comparator)`: a stable sort, `a` before `b` when `comparator a b ≤ 0`. -/
def sortBy {α : Type} (comparator : α → α → Int) (array : List α) : List α :=
  array.insertionSort (fun a b => comparator a b ≤ 0)

/-- The comparator `(a, b) => b.score - a.score`. -/
def byScore (a b : Contributor) : Int := (b.score : Int) - (a.score : Int)

/-- `sortedContributors` of `renderContributorsTable`. -/
def tableContributors (d : DashboardData) : List Contributor :=
  sortBy byScore (Object.values d.contributors)

/-- `sortedContributors` of `renderLeaderboard`. -/
def leaderboardContributors (d : DashboardData) : List Contributor :=
  (sortBy byScore (Object.values d.contributors)).take 10

/-! ## The API client -/

/-- Request headers. -/
abbrev Headers := List (String × String)

/-- `createHeaders(token)`: an empty token is falsy. -/
def createHeaders (token : String) : Headers :=
  let headers := [("Accept", "application/vnd.github.v3+json")]
  if token ≠ "" then headers ++ [("Authorization", "token " ++ token)] else headers

/-- An HTTP response with its decoded body. -/
structure Response (β : Type) where
  status : Nat
  json : β

/-- `response.ok`: the status is in the range 200-299. -/
def Response.ok {β : Type} (response : Response β) : Bool :=
  decide (200 ≤ response.status) && decide (response.status ≤ 299)

/-- Outcome of `await fetch(url, { headers })`: the promise rejects with an
error (transport failure), or a response arrives. -/
inductive FetchResult (β : Type) where
  | rejected (message : String)
  | response (r : Response β)

/-- The remote endpoint for bodies of type `β`. -/
abbrev Fetch (β : Type) := String → Headers → FetchResult β

/-- What a call left behind: the requests it issued, in order, and either the
value it returned or the message of the error it threw. -/
structure Fetched (α : Type) where
  requests : List String
  result : Except String (List α)

/-- `pageUrl` of `fetchPaginated`. -/
def pageUrl (url : String) (page : Nat) : String :=
  url ++ (if '?' ∈ url.toList then "&" else "?") ++ "per_page=100&page=" ++ toString page

/-- The `while (page <= maxPages)` loop of `fetchPaginated`; `fuel` bounds the
iterations and `maxPages` of it is enough (`fetchPaginatedLoop_fuel`). -/
def fetchPaginatedLoop {α : Type} (fetch : Fetch (List α)) (url : String) (headers : Headers)
    (maxPages : Nat) : Nat → Nat → List α → List String → Fetched α
  | 0, _, results, requests => { requests := requests, result := .ok results }
  | fuel + 1, page, results, requests =>
    if page ≤ maxPages then
      match fetch (pageUrl url page) headers with
      | .rejected message =>
        { requests := requests ++ [pageUrl url page], result := .error message }
      | .response response =>
        if !response.ok then
          { requests := requests ++ [pageUrl url page], result := .ok results }
        else if response.json.length = 0 then
          { requests := requests ++ [pageUrl url page], result := .ok results }
        else
          fetchPaginatedLoop fetch url headers maxPages fuel (page + 1)
            (results ++ response.json) (requests ++ [pageUrl url page])
    else { requests := requests, result := .ok results }

/-- `fetchPaginated(url, headers, maxPages)`. -/
def fetchPaginated {α : Type} (fetch : Fetch (List α)) (url : String) (headers : Headers)
    (maxPages : Nat) : Fetched α :=
  fetchPaginatedLoop fetch url headers maxPages maxPages 1 [] []

/-- The default value of the parameter `maxPages`. -/
def defaultMaxPages : Nat := 3

/-- The hosting API as the program sees it: `fetch` restricted to each kind of
endpoint, with the body decoded at the type the API gives it. -/
structure Network where
  repos : Fetch (List Repository)
  commits : Fetch (List Commit)
  pulls : Fetch (List PullRequest)
  issues : Fetch (List Issue)
  languages : Fetch (JsObject Nat)

/-- The API root. -/
def GITHUB_API_BASE : String := "https://api.github.com"

/-- The URL of the repository list of `fetchRepositories`. -/
def reposUrl (org : String) : String :=
  GITHUB_API_BASE ++ "/users/" ++ org ++ "/repos?per_page=100"

/-- The URL of the commit list of `fetchRepositoryData`. -/
def commitsUrl (owner repo since : String) : String :=
  GITHUB_API_BASE ++ "/repos/" ++ owner ++ "/" ++ repo ++ "/commits?since=" ++ since

/-- The URL of the pull-request list of `fetchRepositoryData`. -/
def pullsUrl (owner repo since : String) : String :=
  GITHUB_API_BASE ++ "/repos/" ++ owner ++ "/" ++ repo ++ "/pulls?state=all&since=" ++ since

/-- The URL of the issue list of `fetchRepositoryData`. -/
def issuesUrl (owner repo since : String) : String :=
  GITHUB_API_BASE ++ "/repos/" ++ owner ++ "/" ++ repo ++ "/issues?state=closed&since=" ++ since

/-- The URL of the language map of `fetchRepositoryData`. -/
def languagesUrl (owner repo : String) : String :=
  GITHUB_API_BASE ++ "/repos/" ++ owner ++ "/" ++ repo ++ "/languages"

/-- `fetchRepositories(org, token)`: the names returned, or the message of the error thrown. -/
def fetchRepositories (net : Network) (org token : String) : Except String (List String) :=
  let headers := createHeaders token
  match net.repos (reposUrl org) headers with
  | .rejected message => .error message
  | .response response =>
    if !response.ok then
      if response.status = 404 then
        .error "Organization or user not found"
      else if response.status = 403 then
        .error "API rate limit exceeded. Please provide a GitHub token."
      else
        .error ("GitHub API error: " ++ toString response.status)
    else
      .ok ((response.json.map (fun r => r.name)).take 10)

/-- The `try` block of `fetchRepositoryData`: the snapshot it leaves and the
message of the error it threw, if it threw. -/
def fetchRepositoryDataTry (net : Network) (d : DashboardData) (owner repo token since : String) :
    DashboardData × Option String :=
  let headers := createHeaders token
  match (fetchPaginated net.commits (commitsUrl owner repo since) headers
      defaultMaxPages).result with
  | .error message => (d, some message)
  | .ok commits =>
    let d1 := processCommits d commits
    match (fetchPaginated net.pulls (pullsUrl owner repo since) headers
        defaultMaxPages).result with
    | .error message => (d1, some message)
    | .ok prs =>
      let d2 := processPullRequests d1 prs
      match (fetchPaginated net.issues (issuesUrl owner repo since) headers
          defaultMaxPages).result with
      | .error message => (d2, some message)
      | .ok issues =>
        let d3 := processIssues d2 issues
        match net.languages (languagesUrl owner repo) headers with
        | .rejected message => (d3, some message)
        | .response langResponse =>
          if langResponse.ok then (processLanguages d3 langResponse.json, none)
          else (d3, none)

/-- `fetchRepositoryData(owner, repo, token, since)`: the snapshot it leaves and
the message of the error it throws, if any.  The `catch` clause logs the error
of the `try` block and completes normally. -/
def fetchRepositoryData (net : Network) (d : DashboardData) (owner repo token since : String) :
    DashboardData × Option String :=
  match fetchRepositoryDataTry net d owner repo token since with
  | (d1, some _) => (d1, none)
  | (d1, none) => (d1, none)

/-- The `for (const repoName of repos)` loop of `loadDashboard`: an error thrown
by a call ends the loop. -/
def fetchAllRepositories (net : Network) (org token sinceISO : String) :
    DashboardData → List String → DashboardData × Option String
  | d, [] => (d, none)
  | d, repoName :: rest =>
    match fetchRepositoryData net d org repoName token sinceISO with
    | (d1, some message) => (d1, some message)
    | (d1, none) => fetchAllRepositories net org token sinceISO d1 rest

/-! ## The page -/

/-- What `renderDashboard` puts on the page, as far as the ranking goes: the
four totals of `renderStats`, the rows of `renderLeaderboard` and the rows of
`renderContributorsTable`. -/
structure View where
  stats : Nat × Nat × Nat × Nat
  leaderboard : List Contributor
  table : List Contributor
deriving DecidableEq, Repr

/-- `renderDashboard()`. -/
def renderDashboard (d : DashboardData) : View :=
  { stats := (d.totalCommits, d.totalPRs, d.totalReviews, d.totalIssues),
    leaderboard := leaderboardContributors d,
    table := tableContributors d }

/-- The program state: the global snapshot, the dashboard last rendered (if
any) and the error message shown (if any). -/
structure App where
  dashboardData : DashboardData
  dashboard : Option View
  error : Option String
deriving DecidableEq, Repr

/-- `showError(error.message || '...')` of the `catch` clause of `loadDashboard`. -/
def showCaught (app : App) (message : String) : App :=
  { app with
    error := some (if message ≠ "" then message
      else "Failed to load GitHub data. Please check your credentials and try again.") }

/-- `loadDashboard()`, for the trimmed input fields `token`, `org`, `repo` and
the start of the time window `sinceISO`. -/
def loadDashboard (net : Network) (app : App) (token org repo sinceISO : String) : App :=
  if org = "" then
    { app with error := some "Please enter an organization or username" }
  else
    let app1 := { app with error := none }
    match (if repo ≠ "" then .ok [repo] else fetchRepositories net org token) with
    | .error message => showCaught app1 message
    | .ok repos =>
      if repos.length = 0 then
        showCaught app1 "No repositories found"
      else
        match fetchAllRepositories net org token sinceISO resetDashboardData repos with
        | (d, some message) => showCaught { app1 with dashboardData := d } message
        | (d, none) =>
          let d1 := calculateContributorScores d
          { app1 with dashboardData := d1, dashboard := some (renderDashboard d1) }

/-! ## Specification vocabulary -/

/-- The four counters of a contributor: commits, prs, reviews, issues. -/
abbrev Counters := Nat × Nat × Nat × Nat

/-- The counters of a contributor entry. -/
def counters (c : Contributor) : Counters := (c.commits, c.prs, c.reviews, c.issues)

/-- A keyed mapping seen through its reads. -/
abbrev Reads (V : Type) := String → Option V

/-- The reads of an object. -/
def reads {α : Type} (o : JsObject α) : Reads α := fun key => o.get key

/-- The counters of the contributor a username names, if it names one. -/
def tally (o : JsObject Contributor) : Reads Counters :=
  fun username => (o.get username).map counters

/-- The counters of the contributor a username names in a snapshot. -/
def countersOf (d : DashboardData) : Reads Counters := tally d.contributors

/-- Whether a contributor is created for a username not yet in the mapping:
not for the names inherited from `Object.prototype`. -/
def isCreated (username : String) : Bool := decide (username ∉ Object.prototypeNames)

/-- Every key of a numeric object is created when absent. -/
def always (_ : String) : Bool := true

/-- Adding `amount` under `key`: an absent key starts from zero when `creates`
says it is created, and stays absent otherwise. -/
def creditAt {V : Type} [Add V] [Zero V] (creates : String → Bool) (t : Reads V)
    (key : String) (amount : V) : Reads V :=
  fun k =>
    if key = k then
      if creates k then some ((t k).getD 0 + amount) else (t k).map (fun v => v + amount)
    else t k

/-- Adding a list of keyed amounts, one after the other. -/
def creditAll {V : Type} [Add V] [Zero V] (creates : String → Bool) (t : Reads V)
    (credits : List (String × V)) : Reads V :=
  credits.foldl (fun t c => creditAt creates t c.1 c.2) t

/-- The sum of the amounts a list of credits gives to `key`. -/
def creditSum {V : Type} [Add V] [Zero V] (credits : List (String × V)) (key : String) : V :=
  ((credits.filter (fun c => c.1 = key)).map Prod.snd).sum

/-- Lazy creation of a contributor followed by a change of its entry:
`addContributor(login, avatar)` and then `contributors[login].field++`. -/
def creditContributor (o : JsObject Contributor) (login avatar : String)
    (f : Contributor → Contributor) : JsObject Contributor :=
  (addContributor { resetDashboardData with contributors := o } login avatar).contributors.update
    login f

/-- The guarded initialisation of a numeric property followed by an addition:
`if (!o[key]) o[key] = 0` and then `o[key] += amount`. -/
def creditNumber (o : JsObject Nat) (key : String) (amount : Nat) : JsObject Nat :=
  (if isFalsy (o.get key) then o.set key 0 else o).update key (fun n => n + amount)

/-- What a snapshot says when read as a keyed aggregate: the four totals, the
counters per username, the commits per day and the bytes per language. -/
structure Summary where
  totalCommits : Nat
  totalPRs : Nat
  totalReviews : Nat
  totalIssues : Nat
  counters : Reads Counters
  activity : Reads Nat
  languages : Reads Nat

/-- The summary of a snapshot. -/
def summary (d : DashboardData) : Summary :=
  { totalCommits := d.totalCommits, totalPRs := d.totalPRs, totalReviews := d.totalReviews,
    totalIssues := d.totalIssues, counters := countersOf d,
    activity := reads d.activityData, languages := reads d.languages }

/-- What a run of folds adds to a summary. -/
structure Delta where
  commits : Nat
  prs : Nat
  reviews : Nat
  issues : Nat
  credits : List (String × Counters)
  activity : List (String × Nat)
  languages : List (String × Nat)

/-- Nothing added. -/
def Delta.empty : Delta :=
  { commits := 0, prs := 0, reviews := 0, issues := 0, credits := [], activity := [],
    languages := [] }

/-- One addition after another. -/
def Delta.append (a b : Delta) : Delta :=
  { commits := a.commits + b.commits, prs := a.prs + b.prs, reviews := a.reviews + b.reviews,
    issues := a.issues + b.issues, credits := a.credits ++ b.credits,
    activity := a.activity ++ b.activity, languages := a.languages ++ b.languages }

/-- A list of additions, in order. -/
def Delta.concat : List Delta → Delta
  | [] => Delta.empty
  | a :: rest => a.append (Delta.concat rest)

/-- A summary after an addition. -/
def Summary.add (s : Summary) (a : Delta) : Summary :=
  { totalCommits := s.totalCommits + a.commits, totalPRs := s.totalPRs + a.prs,
    totalReviews := s.totalReviews + a.reviews, totalIssues := s.totalIssues + a.issues,
    counters := creditAll isCreated s.counters a.credits,
    activity := creditAll always s.activity a.activity,
    languages := creditAll always s.languages a.languages }

/-- What one commit record adds, its share of `totalCommits` apart. -/
def commitDelta (commit : Commit) : Delta :=
  match commit.author with
  | none => Delta.empty
  | some a =>
    { Delta.empty with
      credits := [(a.login, (1, 0, 0, 0))],
      activity := [(dayKey commit.commit.author.date, 1)] }

/-- What one requested reviewer adds. -/
def reviewerDelta (reviewer : User) : Delta :=
  { Delta.empty with reviews := 1, credits := [(reviewer.login, (0, 0, 1, 0))] }

/-- What one pull-request record adds, its share of `totalPRs` apart. -/
def pullRequestDelta (pr : PullRequest) : Delta :=
  match pr.user with
  | none => Delta.empty
  | some u =>
    Delta.append { Delta.empty with credits := [(u.login, (0, 1, 0, 0))] }
      (Delta.concat ((pr.requested_reviewers.getD []).map reviewerDelta))

/-- What one issue record without a marker adds, its share of `totalIssues` apart. -/
def issueDelta (issue : Issue) : Delta :=
  match issue.user with
  | none => Delta.empty
  | some u => { Delta.empty with credits := [(u.login, (0, 0, 0, 1))] }

/-- What one key of a language map adds. -/
def languageDelta (languages : JsObject Nat) (lang : String) : Delta :=
  { Delta.empty with languages := [(lang, (languages.get lang).getD 0)] }

/-- What `processCommits(commits)` adds. -/
def commitsDelta (commits : List Commit) : Delta :=
  Delta.append { Delta.empty with commits := commits.length }
    (Delta.concat (commits.map commitDelta))

/-- What `processPullRequests(prs)` adds. -/
def pullRequestsDelta (prs : List PullRequest) : Delta :=
  Delta.append { Delta.empty with prs := prs.length }
    (Delta.concat (prs.map pullRequestDelta))

/-- What `processIssues(issues)` adds. -/
def issuesDelta (issues : List Issue) : Delta :=
  Delta.append
    { Delta.empty with issues := (issues.filter (fun i => i.pull_request.isNone)).length }
    (Delta.concat ((issues.filter (fun i => i.pull_request.isNone)).map issueDelta))

/-- What `processLanguages(languages)` adds. -/
def languagesDelta (languages : JsObject Nat) : Delta :=
  Delta.concat ((Object.keys languages).map (languageDelta languages))

/-- The logins of the `requested_reviewers` entries of the records that have a
`user`, one per entry, in order. -/
def reviewerLogins (prs : List PullRequest) : List String :=
  (prs.filter (fun pr => pr.user.isSome)).flatMap
    (fun pr => (pr.requested_reviewers.getD []).map (fun reviewer => reviewer.login))

/-- The number of records that have a `user` and list `login` as a requested reviewer. -/
def recordsListing (prs : List PullRequest) (login : String) : Nat :=
  (prs.filter (fun pr => pr.user.isSome
    && decide (login ∈ (pr.requested_reviewers.getD []).map (fun reviewer => reviewer.login))
    )).length

/-- The `reviews` counter of a username, zero when it names no contributor. -/
def reviewsOf (d : DashboardData) (username : String) : Nat :=
  ((d.contributors.get username).map (fun c => c.reviews)).getD 0

/-- The records fetched for one repository. -/
structure RepositoryRecords where
  commits : List Commit
  prs : List PullRequest
  issues : List Issue
  languages : JsObject Nat

/-- Folding the records of one repository into the snapshot, in the order
`fetchRepositoryData` does. -/
def foldRepository (d : DashboardData) (r : RepositoryRecords) : DashboardData :=
  processLanguages (processIssues (processPullRequests (processCommits d r.commits) r.prs)
    r.issues) r.languages

/-- What folding the records of one repository adds. -/
def repositoryDelta (r : RepositoryRecords) : Delta :=
  ((commitsDelta r.commits).append (pullRequestsDelta r.prs)).append
    ((issuesDelta r.issues).append (languagesDelta r.languages))

/-- One call of a fold operation, with its argument. -/
inductive Call where
  | processCommits (commits : List Commit)
  | processPullRequests (prs : List PullRequest)
  | processIssues (issues : List Issue)

/-- Running one call on a snapshot. -/
def Call.run (d : DashboardData) : Call → DashboardData
  | .processCommits commits => LeadershipBoard.processCommits d commits
  | .processPullRequests prs => LeadershipBoard.processPullRequests d prs
  | .processIssues issues => LeadershipBoard.processIssues d issues

/-- Running a sequence of calls, first to last. -/
def runCalls (d : DashboardData) (calls : List Call) : DashboardData :=
  calls.foldl Call.run d

/-- The sum of `commits` over all contributors of a snapshot. -/
def sumCommits (d : DashboardData) : Nat :=
  ((Object.values d.contributors).map (fun c => c.commits)).sum

/-- The sum of `commits` over the entries of a contributors object. -/
def commitSum (o : JsObject Contributor) : Nat :=
  (o.map (fun kv => kv.2.commits)).sum

/-- The number of commit records without an author. -/
def authorless (commits : List Commit) : Nat :=
  (commits.filter (fun c => c.author.isNone)).length

/-- The number of commit records without an author a call passes in. -/
def Call.authorless : Call → Nat
  | .processCommits commits => LeadershipBoard.authorless commits
  | .processPullRequests _ => 0
  | .processIssues _ => 0

/-- Whether a commit record has an author whose login is a name inherited from
`Object.prototype`. -/
def hasInheritedAuthor (commit : Commit) : Bool :=
  match commit.author with
  | none => false
  | some a => decide (a.login ∈ Object.prototypeNames)

/-- The number of commit records whose author login is a name inherited from
`Object.prototype`. -/
def inheritedAuthors (commits : List Commit) : Nat :=
  (commits.filter hasInheritedAuthor).length

/-- The number of such commit records a call passes in. -/
def Call.inheritedAuthors : Call → Nat
  | .processCommits commits => LeadershipBoard.inheritedAuthors commits
  | .processPullRequests _ => 0
  | .processIssues _ => 0

/-- What a commit record adds to the `commits` of some contributor: 1 when it
has an author whose login is not a name inherited from `Object.prototype`. -/
def attributed (commit : Commit) : Nat :=
  match commit.author with
  | none => 0
  | some a => if a.login ∈ Object.prototypeNames then 0 else 1

/-- No own property of the object is named like a member of `Object.prototype`. -/
def ownNamesOnly (o : JsObject Contributor) : Prop :=
  ∀ kv ∈ o, kv.1 ∉ Object.prototypeNames

/-- The message a request was rejected with, if it was rejected. -/
def rejection {β : Type} (fetch : Fetch β) (headers : Headers) (u : String) : Option String :=
  match fetch u headers with
  | .rejected message => some message
  | .response _ => none

/-- The records a request brought: the body of a successful response, nothing otherwise. -/
def recordsAt {α : Type} (fetch : Fetch (List α)) (headers : Headers) (u : String) : List α :=
  match fetch u headers with
  | .rejected _ => []
  | .response response => if response.ok then response.json else []

/-- Whether a request brought a successful response with at least one record. -/
def continuesAt {α : Type} (fetch : Fetch (List α)) (headers : Headers) (u : String) : Bool :=
  match fetch u headers with
  | .rejected _ => false
  | .response response => response.ok && decide (response.json.length ≠ 0)

/-! ## Example inputs -/

/-- A commit record by `login`, dated 5 January 2024. -/
def commitBy (login : String) : Commit :=
  { author := some { login := login, avatar_url := "" },
    commit := { author := { date := "2024-01-05T10:00:00Z" } } }

/-- The snapshot after one commit by `bob` and then one by the account `7`, scores computed. -/
def tieSnapshot : DashboardData :=
  calculateContributorScores (processCommits resetDashboardData [commitBy "bob", commitBy "7"])

/-- The snapshot after one commit by `bob` and then one by `alice`, scores computed. -/
def plainSnapshot : DashboardData :=
  calculateContributorScores (processCommits resetDashboardData [commitBy "bob", commitBy "alice"])

/-- A pull request without a `user`, with `carol` as requested reviewer. -/
def ghostPullRequest : PullRequest :=
  { user := none, pull_request := none,
    requested_reviewers := some [{ login := "carol", avatar_url := "" }] }

/-- A pull request by `bob`, with `carol` as requested reviewer. -/
def bobPullRequest : PullRequest :=
  { user := some { login := "bob", avatar_url := "" }, pull_request := none,
    requested_reviewers := some [{ login := "carol", avatar_url := "" }] }

/-- An endpoint with two full pages, an empty third page and more behind it. -/
def threePages : Fetch (List Nat) := fun u _ =>
  if u = "list?x=1&per_page=100&page=1" then .response { status := 200, json := [1, 2] }
  else if u = "list?x=1&per_page=100&page=2" then .response { status := 200, json := [3] }
  else if u = "list?x=1&per_page=100&page=3" then .response { status := 200, json := [] }
  else .response { status := 200, json := [9] }

/-- A network with the repositories `a`, `b` and `c` of the owner `org`: the
commit request for `b` is rejected, `a` and `c` have one commit each, no pull
requests, no issues, and the language endpoint answers 404. -/
def flakyNetwork : Network :=
  { repos := fun _ _ =>
      .response { status := 200, json := [{ name := "a" }, { name := "b" }, { name := "c" }] },
    commits := fun u _ =>
      if u = pageUrl (commitsUrl "org" "b" "2024-01-01T00:00:00.000Z") 1 then
        .rejected "Failed to fetch"
      else if u = pageUrl (commitsUrl "org" "a" "2024-01-01T00:00:00.000Z") 1 then
        .response { status := 200, json := [commitBy "alice"] }
      else if u = pageUrl (commitsUrl "org" "c" "2024-01-01T00:00:00.000Z") 1 then
        .response { status := 200, json := [commitBy "carol"] }
      else .response { status := 200, json := [] },
    pulls := fun _ _ => .response { status := 200, json := [] },
    issues := fun _ _ => .response { status := 200, json := [] },
    languages := fun _ _ => .response { status := 404, json := [] } }

/-- A network whose repository list answers with `status` and an empty body. -/
def statusNetwork (status : Nat) : Network :=
  { repos := fun _ _ => .response { status := status, json := [] },
    commits := fun _ _ => .response { status := 200, json := [] },
    pulls := fun _ _ => .response { status := 200, json := [] },
    issues := fun _ _ => .response { status := 200, json := [] },
    languages := fun _ _ => .response { status := 404, json := [] } }

/-- A page that shows the dashboard of an earlier load. -/
def loadedApp : App :=
  { dashboardData := plainSnapshot, dashboard := some (renderDashboard plainSnapshot),
    error := none }

/-! ## Objects: reads after writes -/

theorem JsObject.get_set {α : Type} (o : JsObject α) (key k : String) (v : α) :
    (o.set key v).get k = if key = k then some v else o.get k := by
  induction o with
  | nil => simp [JsObject.set, JsObject.get]
  | cons p rest ih =>
    obtain ⟨k0, w⟩ := p
    by_cases h0 : k0 = key
    · subst h0
      by_cases h1 : k0 = k <;> simp [JsObject.set, JsObject.get, h1]
    · by_cases h1 : k0 = k
      · subst h1
        have h2 : ¬ key = k0 := fun h => h0 h.symm
        simp [JsObject.set, JsObject.get, h0, h2]
      · simp [JsObject.set, JsObject.get, h0, h1, ih]

theorem JsObject.get_update {α : Type} (o : JsObject α) (key k : String) (f : α → α) :
    (o.update key f).get k = if key = k then (o.get k).map f else o.get k := by
  induction o with
  | nil => simp [JsObject.update, JsObject.get]
  | cons p rest ih =>
    obtain ⟨k0, w⟩ := p
    by_cases h0 : k0 = key
    · subst h0
      by_cases h1 : k0 = k <;> simp [JsObject.update, JsObject.get, h1]
    · by_cases h1 : k0 = k
      · subst h1
        have h2 : ¬ key = k0 := fun h => h0 h.symm
        simp [JsObject.update, JsObject.get, h0, h2]
      · simp [JsObject.update, JsObject.get, h0, h1, ih]

theorem get_creditNumber (o : JsObject Nat) (key k : String) (amount : Nat) :
    (creditNumber o key amount).get k
      = if key = k then some ((o.get k).getD 0 + amount) else o.get k := by
  unfold creditNumber
  rw [JsObject.get_update]
  by_cases h : key = k
  · subst h
    cases hg : o.get key with
    | none => simp [isFalsy, hg, JsObject.get_set]
    | some n =>
      cases n with
      | zero => simp [isFalsy, hg, JsObject.get_set]
      | succ m => simp [isFalsy, hg]
  · simp only [h, if_false]
    split
    · rw [JsObject.get_set]; simp [h]
    · rfl

theorem get_creditContributor (o : JsObject Contributor) (login avatar k : String)
    (f : Contributor → Contributor) :
    (creditContributor o login avatar f).get k
      = if login = k then
          if isCreated k then
            some (f ((o.get k).getD
              { username := login, avatarUrl := avatar,
                commits := 0, prs := 0, reviews := 0, issues := 0, score := 0 }))
          else (o.get k).map f
        else o.get k := by
  unfold creditContributor addContributor JsObject.read
  rw [JsObject.get_update]
  by_cases h : login = k
  · subst h
    cases hg : o.get login with
    | none =>
      by_cases hp : login ∈ Object.prototypeNames
      · simp [resetDashboardData, hg, hp, isCreated]
      · simp [resetDashboardData, hg, hp, isCreated, JsObject.get_set]
    | some c => by_cases hp : login ∈ Object.prototypeNames <;>
        simp [resetDashboardData, hg, hp, isCreated]
  · simp only [h, if_false]
    cases hg : o.get login with
    | none =>
      by_cases hp : login ∈ Object.prototypeNames
      · simp [resetDashboardData, hg, hp]
      · simp [resetDashboardData, hg, hp, JsObject.get_set, h]
    | some c => simp [resetDashboardData, hg]

/-! ## Credits: closed form and order independence -/

theorem creditSum_eq_zero {V : Type} [AddCommMonoid V] (credits : List (String × V))
    (k : String) (h : k ∉ credits.map Prod.fst) : creditSum credits k = 0 := by
  unfold creditSum
  have : credits.filter (fun c => decide (c.1 = k)) = [] := by
    rw [List.filter_eq_nil_iff]
    intro c hc hk
    apply h
    simp only [decide_eq_true_eq] at hk
    exact List.mem_map.mpr ⟨c, hc, hk⟩
  rw [this]; rfl

theorem creditSum_cons {V : Type} [AddCommMonoid V] (c : String × V)
    (credits : List (String × V)) (k : String) :
    creditSum (c :: credits) k = (if c.1 = k then c.2 else 0) + creditSum credits k := by
  unfold creditSum
  by_cases h : c.1 = k <;> simp [List.filter_cons, h]

theorem creditSum_append {V : Type} [AddCommMonoid V] (a b : List (String × V)) (k : String) :
    creditSum (a ++ b) k = creditSum a k + creditSum b k := by
  unfold creditSum
  simp [List.filter_append, List.sum_append]

theorem creditAll_apply {V : Type} [AddCommMonoid V] (creates : String → Bool) (t : Reads V)
    (credits : List (String × V)) (k : String) :
    creditAll creates t credits k
      = if k ∈ credits.map Prod.fst then
          if creates k then some ((t k).getD 0 + creditSum credits k)
          else (t k).map (fun v => v + creditSum credits k)
        else t k := by
  induction credits generalizing t with
  | nil => simp [creditAll]
  | cons c cs ih =>
    have hstep : creditAll creates t (c :: cs)
        = creditAll creates (creditAt creates t c.1 c.2) cs := rfl
    rw [hstep, ih, creditSum_cons]
    by_cases hk : c.1 = k
    · by_cases hm : k ∈ cs.map Prod.fst
      · by_cases hc : creates k = true
        · simp [creditAt, hk, hm, hc, add_assoc]
        · cases ht : t k <;> simp [creditAt, hk, hm, hc, ht, add_assoc]
      · by_cases hc : creates k = true
        · simp [creditAt, hk, hm, hc, creditSum_eq_zero cs k hm]
        · simp [creditAt, hk, hm, hc, creditSum_eq_zero cs k hm]
    · have hk2 : ¬ k = c.1 := fun h => hk h.symm
      by_cases hm : k ∈ cs.map Prod.fst
      · simp [creditAt, hk, hk2, hm]
      · simp [creditAt, hk, hk2, hm]

theorem creditAll_append {V : Type} [Add V] [Zero V] (creates : String → Bool) (t : Reads V)
    (a b : List (String × V)) :
    creditAll creates t (a ++ b) = creditAll creates (creditAll creates t a) b := by
  simp [creditAll, List.foldl_append]

theorem creditAll_comm {V : Type} [AddCommMonoid V] (creates : String → Bool) (t : Reads V)
    (a b : List (String × V)) :
    creditAll creates (creditAll creates t a) b
      = creditAll creates (creditAll creates t b) a := by
  funext k
  rw [← creditAll_append, ← creditAll_append, creditAll_apply, creditAll_apply,
    creditSum_append, creditSum_append, add_comm (creditSum a k)]
  simp only [List.map_append, List.mem_append]
  by_cases ha : k ∈ a.map Prod.fst <;> by_cases hb : k ∈ b.map Prod.fst <;> simp [ha, hb]

/-! ## Summaries: what each fold adds -/

theorem Summary.add_empty (s : Summary) : s.add Delta.empty = s := by
  cases s; simp [Summary.add, Delta.empty, creditAll]

theorem Summary.add_append (s : Summary) (a b : Delta) :
    (s.add a).add b = s.add (a.append b) := by
  simp [Summary.add, Delta.append, creditAll_append, Nat.add_assoc]

theorem Summary.add_comm (s : Summary) (a b : Delta) :
    (s.add a).add b = (s.add b).add a := by
  simp only [Summary.add]
  rw [creditAll_comm isCreated s.counters, creditAll_comm always s.activity,
    creditAll_comm always s.languages,
    Nat.add_right_comm s.totalCommits, Nat.add_right_comm s.totalPRs,
    Nat.add_right_comm s.totalReviews, Nat.add_right_comm s.totalIssues]

theorem summary_foldl {R : Type} (step : DashboardData → R → DashboardData) (delta : R → Delta)
    (h : ∀ d r, summary (step d r) = (summary d).add (delta r))
    (d : DashboardData) (rs : List R) :
    summary (rs.foldl step d) = (summary d).add (Delta.concat (rs.map delta)) := by
  induction rs generalizing d with
  | nil => simp [Delta.concat, Summary.add_empty]
  | cons r rest ih =>
    rw [List.foldl_cons, ih, h, Summary.add_append]
    rfl

theorem tally_creditContributor (o : JsObject Contributor) (login avatar : String)
    (f : Contributor → Contributor) (e : Counters)
    (hf : ∀ c, counters (f c) = counters c + e) :
    tally (creditContributor o login avatar f) = creditAt isCreated (tally o) login e := by
  funext k
  unfold tally creditAt
  rw [get_creditContributor]
  by_cases h : login = k
  · simp only [h, if_true]
    by_cases hc : isCreated k = true
    · simp only [hc, if_true, Option.map_some']
      cases hg : o.get k with
      | none =>
        simp only [Option.getD_none, Option.map_none', hf]
        simp [counters]
      | some c => simp [hf]
    · simp only [hc, Bool.false_eq_true, if_false]
      cases hg : o.get k with
      | none => rfl
      | some c => simp [hf]
  · simp [h]

theorem reads_creditNumber (o : JsObject Nat) (key : String) (amount : Nat) :
    reads (creditNumber o key amount) = creditAt always (reads o) key amount := by
  funext k
  simp [reads, creditAt, always, get_creditNumber]

theorem addContributor_contributors (d : DashboardData) (login avatar : String) :
    (addContributor d login avatar).contributors
      = (addContributor { resetDashboardData with contributors := d.contributors }
          login avatar).contributors := by
  unfold addContributor
  cases hg : d.contributors.read login <;> simp [hg]

theorem addContributor_rest (d : DashboardData) (login avatar : String) :
    addContributor d login avatar
      = { d with contributors := (addContributor d login avatar).contributors } := by
  unfold addContributor
  cases hg : d.contributors.read login <;> simp

theorem processCommit_some (d : DashboardData) (commit : Commit) (a : User)
    (h : commit.author = some a) :
    processCommit d commit
      = { d with
          contributors := creditContributor d.contributors a.login a.avatar_url
            (fun c => { c with commits := c.commits + 1 }),
          activityData := creditNumber d.activityData (dayKey commit.commit.author.date) 1 } := by
  unfold processCommit creditContributor creditNumber
  rw [h]
  simp only
  rw [← addContributor_contributors, addContributor_rest d]
  split <;> rfl

theorem processReviewer_eq (d : DashboardData) (reviewer : User) :
    processReviewer d reviewer
      = { d with
          contributors := creditContributor d.contributors reviewer.login reviewer.avatar_url
            (fun c => { c with reviews := c.reviews + 1 }),
          totalReviews := d.totalReviews + 1 } := by
  unfold processReviewer creditContributor
  simp only
  rw [← addContributor_contributors, addContributor_rest d]

theorem processIssue_some (d : DashboardData) (issue : Issue) (u : User)
    (h : issue.user = some u) :
    processIssue d issue
      = { d with
          contributors := creditContributor d.contributors u.login u.avatar_url
            (fun c => { c with issues := c.issues + 1 }) } := by
  unfold processIssue creditContributor
  rw [h]
  simp only
  rw [← addContributor_contributors, addContributor_rest d]

theorem processLanguage_eq (languages : JsObject Nat) (d : DashboardData) (lang : String) :
    processLanguage languages d lang
      = { d with
          languages := creditNumber d.languages lang ((languages.get lang).getD 0) } := by
  unfold processLanguage creditNumber
  split <;> rfl

theorem summary_processCommit (d : DashboardData) (commit : Commit) :
    summary (processCommit d commit) = (summary d).add (commitDelta commit) := by
  cases h : commit.author with
  | none => simp [processCommit, commitDelta, h, Summary.add_empty]
  | some a =>
    rw [processCommit_some d commit a h]
    simp only [summary, Summary.add, commitDelta, h, Delta.empty, countersOf, creditAll,
      List.foldl_cons, List.foldl_nil, Nat.add_zero]
    rw [tally_creditContributor d.contributors a.login a.avatar_url
      (fun c => { c with commits := c.commits + 1 }) (1, 0, 0, 0)
      (by intro c; simp [counters]), reads_creditNumber]

theorem summary_processReviewer (d : DashboardData) (reviewer : User) :
    summary (processReviewer d reviewer) = (summary d).add (reviewerDelta reviewer) := by
  rw [processReviewer_eq]
  simp only [summary, Summary.add, reviewerDelta, Delta.empty, countersOf, creditAll,
    List.foldl_cons, List.foldl_nil, Nat.add_zero]
  rw [tally_creditContributor d.contributors reviewer.login reviewer.avatar_url
    (fun c => { c with reviews := c.reviews + 1 }) (0, 0, 1, 0) (by intro c; simp [counters])]

theorem summary_processIssue (d : DashboardData) (issue : Issue) :
    summary (processIssue d issue) = (summary d).add (issueDelta issue) := by
  cases h : issue.user with
  | none => simp [processIssue, issueDelta, h, Summary.add_empty]
  | some u =>
    rw [processIssue_some d issue u h]
    simp only [summary, Summary.add, issueDelta, h, Delta.empty, countersOf, creditAll,
      List.foldl_cons, List.foldl_nil, Nat.add_zero]
    rw [tally_creditContributor d.contributors u.login u.avatar_url
      (fun c => { c with issues := c.issues + 1 }) (0, 0, 0, 1) (by intro c; simp [counters])]

theorem summary_processLanguage (languages : JsObject Nat) (d : DashboardData) (lang : String) :
    summary (processLanguage languages d lang) = (summary d).add (languageDelta languages lang) := by
  rw [processLanguage_eq]
  simp only [summary, Summary.add, languageDelta, Delta.empty, countersOf, creditAll,
    List.foldl_cons, List.foldl_nil, Nat.add_zero]
  rw [reads_creditNumber]

theorem summary_processPullRequest (d : DashboardData) (pr : PullRequest) :
    summary (processPullRequest d pr) = (summary d).add (pullRequestDelta pr) := by
  cases h : pr.user with
  | none => simp [processPullRequest, pullRequestDelta, h, Summary.add_empty]
  | some u =>
    have hauthor : summary { d with
          contributors := (addContributor d u.login u.avatar_url).contributors.update u.login
            (fun c => { c with prs := c.prs + 1 }) }
        = (summary d).add { Delta.empty with credits := [(u.login, (0, 1, 0, 0))] } := by
      have hc := tally_creditContributor d.contributors u.login u.avatar_url
        (fun c => { c with prs := c.prs + 1 }) (0, 1, 0, 0) (by intro c; simp [counters])
      unfold creditContributor at hc
      rw [← addContributor_contributors] at hc
      simp only [summary, Summary.add, Delta.empty, countersOf, creditAll,
        List.foldl_cons, List.foldl_nil, Nat.add_zero]
      rw [hc]
    have hstep : processPullRequest d pr
        = (pr.requested_reviewers.getD []).foldl processReviewer { d with
            contributors := (addContributor d u.login u.avatar_url).contributors.update u.login
              (fun c => { c with prs := c.prs + 1 }) } := by
      unfold processPullRequest
      rw [h]
      simp only
      rw [addContributor_rest d]
      cases pr.requested_reviewers <;> rfl
    rw [hstep, summary_foldl processReviewer reviewerDelta summary_processReviewer, hauthor,
      Summary.add_append]
    simp [pullRequestDelta, h]

theorem summary_processCommits (d : DashboardData) (commits : List Commit) :
    summary (processCommits d commits) = (summary d).add (commitsDelta commits) := by
  unfold processCommits commitsDelta
  rw [summary_foldl processCommit commitDelta summary_processCommit, ← Summary.add_append]
  rfl

theorem summary_processPullRequests (d : DashboardData) (prs : List PullRequest) :
    summary (processPullRequests d prs) = (summary d).add (pullRequestsDelta prs) := by
  have hall : prs.filter (fun pr => pr.pull_request.isNone || pr.pull_request.isSome) = prs := by
    rw [List.filter_eq_self]
    intro pr _
    cases pr.pull_request <;> rfl
  unfold processPullRequests pullRequestsDelta
  simp only [hall]
  rw [summary_foldl processPullRequest pullRequestDelta summary_processPullRequest,
    ← Summary.add_append]
  rfl

theorem summary_processIssues (d : DashboardData) (issues : List Issue) :
    summary (processIssues d issues) = (summary d).add (issuesDelta issues) := by
  unfold processIssues issuesDelta
  simp only
  rw [summary_foldl processIssue issueDelta summary_processIssue, ← Summary.add_append]
  rfl

theorem summary_processLanguages (d : DashboardData) (languages : JsObject Nat) :
    summary (processLanguages d languages) = (summary d).add (languagesDelta languages) := by
  unfold processLanguages languagesDelta
  rw [summary_foldl (processLanguage languages) (languageDelta languages)
    (summary_processLanguage languages)]

/-! ## Enumeration order of an object -/

theorem JsObject.ownProperties_perm {α : Type} (o : JsObject α) :
    (JsObject.ownProperties o).Perm o := by
  unfold JsObject.ownProperties
  have hnone : (fun kv : String × α => (JsObject.arrayIndex? kv.1).isNone)
      = (fun kv => !(JsObject.arrayIndex? kv.1).isSome) := by
    funext kv
    cases JsObject.arrayIndex? kv.1 <;> rfl
  rw [hnone]
  exact ((List.perm_insertionSort _ _).append_right _).trans (List.filter_append_perm _ o)

theorem JsObject.ownProperties_eq_self {α : Type} (o : JsObject α)
    (h : ∀ kv ∈ o, JsObject.arrayIndex? kv.1 = none) : JsObject.ownProperties o = o := by
  unfold JsObject.ownProperties
  have h1 : o.filter (fun kv => (JsObject.arrayIndex? kv.1).isSome) = [] := by
    rw [List.filter_eq_nil_iff]
    intro kv hkv
    simp [h kv hkv]
  have h2 : o.filter (fun kv => (JsObject.arrayIndex? kv.1).isNone) = o := by
    rw [List.filter_eq_self]
    intro kv hkv
    simp [h kv hkv]
  rw [h1, h2]
  rfl

theorem Object.values_perm {α : Type} (o : JsObject α) :
    (Object.values o).Perm (o.map Prod.snd) :=
  (JsObject.ownProperties_perm o).map Prod.snd

theorem Object.keys_perm {α : Type} (o : JsObject α) :
    (Object.keys o).Perm (o.map Prod.fst) :=
  (JsObject.ownProperties_perm o).map Prod.fst

theorem JsObject.get_map {α : Type} (o : JsObject α) (g : α → α) (k : String) :
    JsObject.get (o.map (fun kv => (kv.1, g kv.2))) k = (JsObject.get o k).map g := by
  induction o with
  | nil => rfl
  | cons p rest ih =>
    obtain ⟨k0, w⟩ := p
    by_cases h : k0 = k <;> simp [JsObject.get, h, ih]

/-! ## Stable sorting -/

theorem filter_orderedInsert {α : Type} (r : α → α → Prop) [DecidableRel r] (p : α → Bool)
    (a : α) (l : List α) (h : ∀ b, ¬ r a b → p a = true → p b = false) :
    (l.orderedInsert r a).filter p = (a :: l).filter p := by
  induction l with
  | nil => rfl
  | cons b rest ih =>
    by_cases hr : r a b
    · simp [List.orderedInsert, hr]
    · simp only [List.orderedInsert, hr, if_false]
      by_cases hp : p a = true
      · have hb := h b hr hp
        rw [List.filter_cons_of_neg (by simp [hb]), ih, List.filter_cons_of_pos hp,
          List.filter_cons_of_pos hp, List.filter_cons_of_neg (by simp [hb])]
      · by_cases hb : p b = true
        · rw [List.filter_cons_of_pos hb, ih, List.filter_cons_of_neg hp,
            List.filter_cons_of_neg hp, List.filter_cons_of_pos hb]
        · rw [List.filter_cons_of_neg hb, ih, List.filter_cons_of_neg hp,
            List.filter_cons_of_neg hp, List.filter_cons_of_neg hb]

theorem filter_insertionSort {α : Type} (r : α → α → Prop) [DecidableRel r] (p : α → Bool)
    (l : List α) (h : ∀ a b, ¬ r a b → p a = true → p b = false) :
    (l.insertionSort r).filter p = l.filter p := by
  induction l with
  | nil => rfl
  | cons a rest ih =>
    show ((rest.insertionSort r).orderedInsert r a).filter p = (a :: rest).filter p
    rw [filter_orderedInsert r p a _ (h a)]
    by_cases hp : p a = true
    · rw [List.filter_cons_of_pos hp, List.filter_cons_of_pos hp, ih]
    · rw [List.filter_cons_of_neg hp, List.filter_cons_of_neg hp, ih]

theorem byScore_le_zero (a b : Contributor) : byScore a b ≤ 0 ↔ b.score ≤ a.score := by
  unfold byScore
  omega

theorem sortBy_byScore_sorted (l : List Contributor) :
    (sortBy byScore l).Pairwise (fun a b => b.score ≤ a.score) := by
  have htotal : IsTotal Contributor (fun a b => byScore a b ≤ 0) :=
    ⟨fun a b => by simp only [byScore_le_zero]; omega⟩
  have htrans : IsTrans Contributor (fun a b => byScore a b ≤ 0) :=
    ⟨fun a b c => by simp only [byScore_le_zero]; omega⟩
  have hs := List.sorted_insertionSort (fun a b : Contributor => byScore a b ≤ 0) l
  exact List.Pairwise.imp (fun h => (byScore_le_zero _ _).mp h) hs

theorem sortBy_byScore_stable (l : List Contributor) (s : Nat) :
    (sortBy byScore l).filter (fun c => c.score = s) = l.filter (fun c => c.score = s) := by
  unfold sortBy
  apply filter_insertionSort
  intro a b hr ha
  rw [byScore_le_zero] at hr
  simp only [decide_eq_true_eq] at ha
  simp only [decide_eq_false_iff_not]
  omega

theorem sortBy_perm {α : Type} (comparator : α → α → Int) (l : List α) :
    (sortBy comparator l).Perm l :=
  List.perm_insertionSort _ l


/-! ## Scores and ranking -/

/-- C1: after `calculateContributorScores` every contributor of the mapping has
`score = commits*1 + prs*5 + reviews*3 + issues*2`; each entry is the old one
with only its score rewritten, so the four counters, the usernames and their
order are unchanged, no entry is added, and the rest of the snapshot is
untouched; running it a second time changes nothing. -/
theorem calculateContributorScores_spec (d : DashboardData) :
    (∀ c ∈ Object.values (calculateContributorScores d).contributors,
        c.score = c.commits * 1 + c.prs * 5 + c.reviews * 3 + c.issues * 2)
    ∧ (∀ username : String, (calculateContributorScores d).contributors.get username
        = (d.contributors.get username).map (fun c =>
            { c with score := c.commits * 1 + c.prs * 5 + c.reviews * 3 + c.issues * 2 }))
    ∧ (calculateContributorScores d).contributors.map (fun kv => (kv.1, counters kv.2))
        = d.contributors.map (fun kv => (kv.1, counters kv.2))
    ∧ calculateContributorScores d
        = { d with contributors := (calculateContributorScores d).contributors }
    ∧ calculateContributorScores (calculateContributorScores d)
        = calculateContributorScores d := by
  refine ⟨?_, ?_, ?_, rfl, ?_⟩
  · intro c hc
    have hmem := (Object.values_perm _).mem_iff.mp hc
    simp only [calculateContributorScores, List.map_map, List.mem_map] at hmem
    obtain ⟨kv, _, rfl⟩ := hmem
    rfl
  · intro username
    simp only [calculateContributorScores]
    rw [JsObject.get_map]
    rfl
  · simp [calculateContributorScores, List.map_map, Function.comp_def, rescore, counters]
  · simp [calculateContributorScores, List.map_map, Function.comp_def, rescore]

/-- C6, counterexample: `bob` and the account `7` have the same score and `bob`
was inserted first, yet the table lists `7` first. -/
theorem tableContributors_tie_not_insertion_order :
    tieSnapshot.contributors.map (fun kv => (kv.1, kv.2.score)) = [("bob", 1), ("7", 1)]
    ∧ (tableContributors tieSnapshot).map (fun c => (c.username, c.score))
        = [("7", 1), ("bob", 1)] := by
  decide

/-- C6, amended: the order of the full table is a permutation of all
contributors, sorted in non-increasing score, in which contributors of equal
score keep the order `Object.values` enumerates them in; that order is the
insertion order when no username is an array index; the leaderboard is the
first `min(10, n)` entries of the table order. -/
theorem tableContributors_spec (d : DashboardData) :
    (tableContributors d).Perm (d.contributors.map Prod.snd)
    ∧ (tableContributors d).Pairwise (fun a b => b.score ≤ a.score)
    ∧ (∀ s : Nat, (tableContributors d).filter (fun c => c.score = s)
        = (Object.values d.contributors).filter (fun c => c.score = s))
    ∧ ((∀ kv ∈ d.contributors, JsObject.arrayIndex? kv.1 = none) →
        Object.values d.contributors = d.contributors.map Prod.snd)
    ∧ leaderboardContributors d = (tableContributors d).take 10
    ∧ (leaderboardContributors d).length = min 10 d.contributors.length := by
  refine ⟨?_, sortBy_byScore_sorted _, fun s => sortBy_byScore_stable _ s, ?_, rfl, ?_⟩
  · exact (sortBy_perm _ _).trans (Object.values_perm _)
  · intro h
    unfold Object.values
    rw [JsObject.ownProperties_eq_self _ h]
  · have hlen : (sortBy byScore (Object.values d.contributors)).length
        = d.contributors.length := by
      rw [((sortBy_perm byScore _).trans (Object.values_perm d.contributors)).length_eq,
        List.length_map]
    unfold leaderboardContributors
    rw [List.length_take, hlen]

/-- C6, witness: in `plainSnapshot` no username is an array index. -/
theorem tableContributors_spec_witness :
    (∀ kv ∈ plainSnapshot.contributors, JsObject.arrayIndex? kv.1 = none)
    ∧ Object.values plainSnapshot.contributors = plainSnapshot.contributors.map Prod.snd :=
  ⟨by decide, (tableContributors_spec plainSnapshot).2.2.2.1 (by decide)⟩

/-! ## Issues -/

/-- C4: `processIssues` leaves the snapshot exactly as processing only the
records without a `pull_request` marker does; `totalIssues` grows by the number
of those records; a record with the marker, alone or anywhere in a list,
changes nothing (no total, no counter, no new contributor). -/
theorem processIssues_spec (d : DashboardData) (issues : List Issue) :
    processIssues d issues
        = processIssues d (issues.filter (fun issue => issue.pull_request.isNone))
    ∧ (processIssues d issues).totalIssues
        = d.totalIssues + (issues.filter (fun issue => issue.pull_request.isNone)).length
    ∧ (∀ (user : Option User) (ref : PullRequestRef),
        processIssues d [{ user := user, pull_request := some ref }] = d)
    ∧ (∀ (user : Option User) (ref : PullRequestRef) (post : List Issue),
        processIssues d (issues ++ { user := user, pull_request := some ref } :: post)
          = processIssues d (issues ++ post)) := by
  refine ⟨?_, ?_, ?_, ?_⟩
  · unfold processIssues
    simp only [List.filter_filter, Bool.and_self]
  · have h := congrArg Summary.totalIssues (summary_processIssues d issues)
    simp only [summary, Summary.add, issuesDelta, Delta.append, Delta.empty] at h
    rw [h]
    generalize issues.filter (fun i => i.pull_request.isNone) = l
    have hz : (Delta.concat (l.map issueDelta)).issues = 0 := by
      induction l with
      | nil => rfl
      | cons i rest ih =>
        simp only [List.map_cons, Delta.concat, Delta.append, ih]
        unfold issueDelta
        cases i.user <;> rfl
    omega
  · intro user ref
    rfl
  · intro user ref post
    unfold processIssues
    simp [List.filter_append, List.filter_cons]

/-! ## Pull requests and review credits -/

theorem getD_creditAll {V : Type} [AddCommMonoid V] (creates : String → Bool) (t : Reads V)
    (credits : List (String × V)) (k : String) (hc : creates k = true) :
    (creditAll creates t credits k).getD 0 = (t k).getD 0 + creditSum credits k := by
  rw [creditAll_apply]
  by_cases h : k ∈ credits.map Prod.fst
  · simp [h, hc]
  · simp [h, creditSum_eq_zero credits k h]

theorem isSome_creditAll {V : Type} [AddCommMonoid V] (creates : String → Bool) (t : Reads V)
    (credits : List (String × V)) (k : String) (hc : creates k = true)
    (h : k ∈ credits.map Prod.fst) :
    (creditAll creates t credits k).isSome = true := by
  rw [creditAll_apply]
  simp [h, hc]

theorem Delta.concat_append (a b : List Delta) :
    Delta.concat (a ++ b) = (Delta.concat a).append (Delta.concat b) := by
  induction a with
  | nil => simp [Delta.concat, Delta.append, Delta.empty]
  | cons x rest ih =>
    simp [Delta.concat, ih, Delta.append, Nat.add_assoc]

theorem reviewers_reviews (reviewers : List User) :
    (Delta.concat (reviewers.map reviewerDelta)).reviews = reviewers.length := by
  induction reviewers with
  | nil => rfl
  | cons r rest ih =>
    simp only [List.map_cons, Delta.concat, Delta.append, ih, reviewerDelta, Delta.empty,
      List.length_cons]
    omega

theorem reviewers_creditSum (reviewers : List User) (login : String) :
    (creditSum (Delta.concat (reviewers.map reviewerDelta)).credits login).2.2.1
      = (reviewers.map (fun reviewer => reviewer.login)).count login := by
  induction reviewers with
  | nil => rfl
  | cons r rest ih =>
    simp only [List.map_cons, Delta.concat, Delta.append, reviewerDelta, Delta.empty,
      List.singleton_append, creditSum_cons, List.count_cons]
    by_cases h : r.login = login
    · simp [h, ih]; omega
    · simp [h, ih]

theorem pullRequests_reviews (prs : List PullRequest) :
    (Delta.concat (prs.map pullRequestDelta)).reviews = (reviewerLogins prs).length := by
  induction prs with
  | nil => rfl
  | cons pr rest ih =>
    simp only [List.map_cons, Delta.concat, Delta.append, ih, reviewerLogins]
    cases h : pr.user with
    | none => simp [pullRequestDelta, h, Delta.empty, List.filter_cons]
    | some u =>
      simp [pullRequestDelta, h, Delta.empty, Delta.append, List.filter_cons,
        reviewers_reviews]

theorem pullRequests_creditSum (prs : List PullRequest) (login : String) :
    (creditSum (Delta.concat (prs.map pullRequestDelta)).credits login).2.2.1
      = (reviewerLogins prs).count login := by
  induction prs with
  | nil => rfl
  | cons pr rest ih =>
    have hrest : (creditSum (Delta.concat (rest.map pullRequestDelta)).credits login).2.2.1
        = (reviewerLogins rest).count login := ih
    simp only [List.map_cons, Delta.concat, Delta.append, creditSum_append]
    cases h : pr.user with
    | none =>
      have h1 : reviewerLogins (pr :: rest) = reviewerLogins rest := by
        simp [reviewerLogins, List.filter_cons, h]
      have h0 : creditSum (pullRequestDelta pr).credits login = 0 := by
        simp [pullRequestDelta, h, Delta.empty, creditSum]
      rw [h1, ← hrest, h0, zero_add]
    | some u =>
      have h1 : reviewerLogins (pr :: rest)
          = (pr.requested_reviewers.getD []).map (fun reviewer => reviewer.login)
            ++ reviewerLogins rest := by
        simp [reviewerLogins, List.filter_cons, h]
      rw [h1, List.count_append, ← hrest, ← reviewers_creditSum]
      simp only [pullRequestDelta, h, Delta.append, Delta.empty, List.singleton_append,
        creditSum_cons]
      by_cases hl : u.login = login <;> simp [hl]

/-- C5, counterexample: a pull request without a `user` lists `carol` as
requested reviewer, yet `totalReviews` stays 0 and `carol` is not created. -/
theorem processPullRequests_skips_reviewers_without_user :
    (ghostPullRequest.requested_reviewers.getD []).length = 1
    ∧ (processPullRequests resetDashboardData [ghostPullRequest]).totalReviews = 0
    ∧ (processPullRequests resetDashboardData [ghostPullRequest]).contributors.get "carol"
        = none := by
  decide

theorem count_reviewerLogins (prs : List PullRequest) (login : String)
    (hdistinct : ∀ pr ∈ prs,
      ((pr.requested_reviewers.getD []).map (fun reviewer => reviewer.login)).Nodup) :
    (reviewerLogins prs).count login = recordsListing prs login := by
  induction prs with
  | nil => rfl
  | cons pr rest ih =>
    have hrest := ih (fun x hx => hdistinct x (List.mem_cons_of_mem _ hx))
    have hpr := hdistinct pr (List.mem_cons_self _ _)
    unfold recordsListing at hrest ⊢
    cases h : pr.user with
    | none =>
      have h1 : reviewerLogins (pr :: rest) = reviewerLogins rest := by
        simp [reviewerLogins, List.filter_cons, h]
      rw [h1, hrest]
      simp [List.filter_cons, h]
    | some u =>
      have h1 : reviewerLogins (pr :: rest)
          = (pr.requested_reviewers.getD []).map (fun reviewer => reviewer.login)
            ++ reviewerLogins rest := by
        simp [reviewerLogins, List.filter_cons, h]
      rw [h1, List.count_append, hrest, List.count_eq_of_nodup hpr]
      by_cases hm : login ∈ (pr.requested_reviewers.getD []).map (fun reviewer => reviewer.login)
      · simp only [List.filter_cons, h, Option.isSome_some, Bool.true_and, hm, decide_True,
          if_true, List.length_cons]
        omega
      · simp only [List.filter_cons, h, Option.isSome_some, Bool.true_and, hm, decide_False,
          if_false, Bool.false_eq_true]
        omega

/-- C5, amended: over the records that have a `user` (a record without one is
skipped whole), `processPullRequests` gives one review credit per requested
reviewer per pull request: `totalReviews` grows by the number of
`requested_reviewers` entries of those records; for every login that is not a
name inherited from `Object.prototype`, the `reviews` counter grows by the
number of those entries that name it, which is the number of those records
that list it when no record lists a login twice (so an author gains nothing
for the reviewers of their own pull request), and a login so listed is a
contributor afterwards. -/
theorem processPullRequests_reviews (d : DashboardData) (prs : List PullRequest) :
    (processPullRequests d prs).totalReviews = d.totalReviews + (reviewerLogins prs).length
    ∧ (∀ login : String, login ∉ Object.prototypeNames →
        reviewsOf (processPullRequests d prs) login
          = reviewsOf d login + (reviewerLogins prs).count login)
    ∧ ((∀ pr ∈ prs,
          ((pr.requested_reviewers.getD []).map (fun reviewer => reviewer.login)).Nodup) →
        ∀ login : String, login ∉ Object.prototypeNames →
          reviewsOf (processPullRequests d prs) login
            = reviewsOf d login + recordsListing prs login)
    ∧ (∀ login ∈ reviewerLogins prs, login ∉ Object.prototypeNames →
        ((processPullRequests d prs).contributors.get login).isSome = true) := by
  have hs := summary_processPullRequests d prs
  have hcount : ∀ login : String, login ∉ Object.prototypeNames →
      reviewsOf (processPullRequests d prs) login
        = reviewsOf d login + (reviewerLogins prs).count login := by
    intro login hlogin
    have h := congrFun (congrArg Summary.counters hs) login
    simp only [summary, Summary.add, pullRequestsDelta, Delta.append, Delta.empty,
      List.nil_append] at h
    have hr : ∀ x : DashboardData, reviewsOf x login = ((countersOf x login).getD 0).2.2.1 := by
      intro x
      unfold reviewsOf countersOf tally
      cases x.contributors.get login <;> rfl
    rw [hr, hr, h, getD_creditAll isCreated _ _ _ (by simp [isCreated, hlogin]),
      ← pullRequests_creditSum]
    rfl
  refine ⟨?_, hcount, ?_, ?_⟩
  · have h := congrArg Summary.totalReviews hs
    simp only [summary, Summary.add, pullRequestsDelta, Delta.append, Delta.empty] at h
    rw [h, pullRequests_reviews]
    omega
  · intro hdistinct login hlogin
    rw [hcount login hlogin, count_reviewerLogins prs login hdistinct]
  · intro login hmember hlogin
    have h := congrFun (congrArg Summary.counters hs) login
    simp only [summary, Summary.add, pullRequestsDelta, Delta.append, Delta.empty,
      List.nil_append] at h
    have hmem : login ∈ (Delta.concat (prs.map pullRequestDelta)).credits.map Prod.fst := by
      by_contra hno
      have hz := creditSum_eq_zero _ login hno
      have hc := pullRequests_creditSum prs login
      rw [hz] at hc
      have hpos : 0 < (reviewerLogins prs).count login := List.count_pos_iff.mpr hmember
      have h0 : ((0 : Counters)).2.2.1 = 0 := rfl
      omega
    have hsome := isSome_creditAll isCreated (countersOf d) _ login
      (by simp [isCreated, hlogin]) hmem
    rw [← h] at hsome
    unfold countersOf tally at hsome
    cases hg : (processPullRequests d prs).contributors.get login with
    | none => rw [hg] at hsome; simp at hsome
    | some c => rfl

/-- C5, witness: `carol` is the requested reviewer of a pull request by `bob`. -/
theorem processPullRequests_reviews_witness :
    (∀ pr ∈ [bobPullRequest],
        ((pr.requested_reviewers.getD []).map (fun reviewer => reviewer.login)).Nodup)
    ∧ "carol" ∉ Object.prototypeNames
    ∧ "carol" ∈ reviewerLogins [bobPullRequest]
    ∧ reviewsOf (processPullRequests resetDashboardData [bobPullRequest]) "carol"
        = reviewsOf resetDashboardData "carol" + recordsListing [bobPullRequest] "carol"
    ∧ reviewsOf (processPullRequests resetDashboardData [bobPullRequest]) "carol" = 1
    ∧ ((processPullRequests resetDashboardData [bobPullRequest]).contributors.get
        "carol").isSome = true :=
  ⟨by decide, by decide, by decide,
    (processPullRequests_reviews resetDashboardData [bobPullRequest]).2.2.1 (by decide)
      "carol" (by decide),
    by decide,
    (processPullRequests_reviews resetDashboardData [bobPullRequest]).2.2.2 "carol"
      (by decide) (by decide)⟩

/-! ## Languages -/

theorem languages_credits (languages : JsObject Nat) (keys : List String) :
    (Delta.concat (keys.map (languageDelta languages))).languages
      = keys.map (fun k => (k, (languages.get k).getD 0)) := by
  induction keys with
  | nil => rfl
  | cons k rest ih =>
    simp [Delta.concat, Delta.append, languageDelta, Delta.empty, ih]

theorem creditSum_of_nodup (g : String → Nat) (keys : List String) (k : String)
    (hnodup : keys.Nodup) (hmem : k ∈ keys) :
    creditSum (keys.map (fun x => (x, g x))) k = g k := by
  induction keys with
  | nil => simp at hmem
  | cons x rest ih =>
    rw [List.map_cons, creditSum_cons]
    rw [List.nodup_cons] at hnodup
    by_cases hx : x = k
    · subst hx
      have hz : creditSum (rest.map (fun y => (y, g y))) x = 0 := by
        apply creditSum_eq_zero
        simpa [List.map_map, Function.comp_def] using hnodup.1
      simp [hz]
    · have hk : k ∈ rest := by
        rcases List.mem_cons.mp hmem with h | h
        · exact absurd h.symm hx
        · exact h
      simp [hx, ih hnodup.2 hk]

theorem JsObject.get_of_mem {α : Type} (o : JsObject α) (k : String) (v : α)
    (hnodup : (o.map Prod.fst).Nodup) (hmem : (k, v) ∈ o) : JsObject.get o k = some v := by
  induction o with
  | nil => simp at hmem
  | cons p rest ih =>
    obtain ⟨k0, w⟩ := p
    rw [List.map_cons, List.nodup_cons] at hnodup
    rcases List.mem_cons.mp hmem with h | h
    · cases h
      simp [JsObject.get]
    · have hne : k0 ≠ k := by
        intro heq
        apply hnodup.1
        rw [heq]
        exact List.mem_map.mpr ⟨(k, v), h, rfl⟩
      simp [JsObject.get, hne, ih hnodup.2 h]

theorem processLanguages_rest (d : DashboardData) (languages : JsObject Nat) :
    processLanguages d languages
      = { d with languages := (processLanguages d languages).languages } := by
  unfold processLanguages
  generalize Object.keys languages = keys
  induction keys generalizing d with
  | nil => rfl
  | cons k rest ih =>
    rw [List.foldl_cons, ih, processLanguage_eq]

/-- C8: for a language map (its keys distinct, as in any object) `processLanguages`
gives each language of the map the value (prior value, or 0 if absent) + its
byte count, leaves every other language as it was (absent ones stay absent)
and changes nothing else in the snapshot; prior `{Go: 200}` merged with
`{Go: 800, Rust: 200}` gives `{Go: 1000, Rust: 200}`. -/
theorem processLanguages_spec (d : DashboardData) (languages : JsObject Nat)
    (hkeys : (languages.map Prod.fst).Nodup) :
    (∀ (lang : String) (bytes : Nat), (lang, bytes) ∈ languages →
        (processLanguages d languages).languages.get lang
          = some ((d.languages.get lang).getD 0 + bytes))
    ∧ (∀ lang : String, lang ∉ languages.map Prod.fst →
        (processLanguages d languages).languages.get lang = d.languages.get lang)
    ∧ processLanguages d languages
        = { d with languages := (processLanguages d languages).languages }
    ∧ (processLanguages { resetDashboardData with languages := [("Go", 200)] }
          [("Go", 800), ("Rust", 200)]).languages
        = [("Go", 1000), ("Rust", 200)] := by
  have hs : ∀ lang, (processLanguages d languages).languages.get lang
      = creditAll always (reads d.languages)
          ((Object.keys languages).map (fun k => (k, (languages.get k).getD 0))) lang := by
    intro lang
    have h := congrFun (congrArg Summary.languages (summary_processLanguages d languages)) lang
    simp only [summary, Summary.add, languagesDelta, languages_credits] at h
    exact h
  have hmap : ((Object.keys languages).map (fun k => (k, (languages.get k).getD 0))).map Prod.fst
      = Object.keys languages := by
    simp [List.map_map, Function.comp_def]
  refine ⟨?_, ?_, processLanguages_rest d languages, by decide⟩
  · intro lang bytes hmem
    have hk : lang ∈ Object.keys languages :=
      (Object.keys_perm languages).mem_iff.mpr (List.mem_map.mpr ⟨(lang, bytes), hmem, rfl⟩)
    have hnd : (Object.keys languages).Nodup := (Object.keys_perm languages).nodup_iff.mpr hkeys
    have halways : always lang = true := rfl
    rw [hs, creditAll_apply, hmap, if_pos hk, if_pos halways,
      creditSum_of_nodup (fun k => (languages.get k).getD 0) _ lang hnd hk,
      JsObject.get_of_mem languages lang bytes hkeys hmem]
    rfl
  · intro lang hno
    have hk : lang ∉ Object.keys languages := fun h =>
      hno ((Object.keys_perm languages).mem_iff.mp h)
    rw [hs, creditAll_apply, hmap, if_neg hk]
    rfl

/-- C8, witness: the language map `{Go: 800, Rust: 200}` merged into `{Go: 200}`. -/
theorem processLanguages_spec_witness :
    ((([("Go", 800), ("Rust", 200)] : JsObject Nat).map Prod.fst).Nodup)
    ∧ (processLanguages { resetDashboardData with languages := [("Go", 200)] }
          [("Go", 800), ("Rust", 200)]).languages.get "Rust" = some (0 + 200) :=
  ⟨by decide,
    (processLanguages_spec { resetDashboardData with languages := [("Go", 200)] }
      [("Go", 800), ("Rust", 200)] (by decide)).1 "Rust" 200 (by decide)⟩

/-! ## Folding repositories in either order -/

theorem summary_foldRepository (d : DashboardData) (r : RepositoryRecords) :
    summary (foldRepository d r) = (summary d).add (repositoryDelta r) := by
  unfold foldRepository repositoryDelta
  rw [summary_processLanguages, summary_processIssues, summary_processPullRequests,
    summary_processCommits, Summary.add_append, Summary.add_append, Summary.add_append]
  simp [Delta.append, Nat.add_assoc]

theorem score_calculateContributorScores (d : DashboardData) (username : String) :
    ((calculateContributorScores d).contributors.get username).map (fun c => c.score)
      = (countersOf d username).map
          (fun n => n.1 * 1 + n.2.1 * 5 + n.2.2.1 * 3 + n.2.2.2 * 2) := by
  simp only [calculateContributorScores, countersOf, tally]
  rw [JsObject.get_map]
  cases d.contributors.get username <;> rfl

/-- C7: folding the records of repository `a` and then those of `b` gives the
same totals, the same counters per username (hence the same scores once
computed), the same commits per day and the same bytes per language as
folding `b` and then `a`, from any snapshot. -/
theorem foldRepository_comm (d : DashboardData) (a b : RepositoryRecords) :
    (foldRepository (foldRepository d a) b).totalCommits
        = (foldRepository (foldRepository d b) a).totalCommits
    ∧ (foldRepository (foldRepository d a) b).totalPRs
        = (foldRepository (foldRepository d b) a).totalPRs
    ∧ (foldRepository (foldRepository d a) b).totalReviews
        = (foldRepository (foldRepository d b) a).totalReviews
    ∧ (foldRepository (foldRepository d a) b).totalIssues
        = (foldRepository (foldRepository d b) a).totalIssues
    ∧ (∀ username : String,
        ((foldRepository (foldRepository d a) b).contributors.get username).map counters
          = ((foldRepository (foldRepository d b) a).contributors.get username).map counters)
    ∧ (∀ username : String,
        ((calculateContributorScores
            (foldRepository (foldRepository d a) b)).contributors.get username).map
              (fun c => c.score)
          = ((calculateContributorScores
              (foldRepository (foldRepository d b) a)).contributors.get username).map
                (fun c => c.score))
    ∧ (∀ day : String,
        (foldRepository (foldRepository d a) b).activityData.get day
          = (foldRepository (foldRepository d b) a).activityData.get day)
    ∧ (∀ lang : String,
        (foldRepository (foldRepository d a) b).languages.get lang
          = (foldRepository (foldRepository d b) a).languages.get lang) := by
  have hs : summary (foldRepository (foldRepository d a) b)
      = summary (foldRepository (foldRepository d b) a) := by
    rw [summary_foldRepository, summary_foldRepository, summary_foldRepository,
      summary_foldRepository, Summary.add_comm]
  have hc : ∀ username, countersOf (foldRepository (foldRepository d a) b) username
      = countersOf (foldRepository (foldRepository d b) a) username :=
    fun username => congrFun (congrArg Summary.counters hs) username
  refine ⟨congrArg Summary.totalCommits hs, congrArg Summary.totalPRs hs,
    congrArg Summary.totalReviews hs, congrArg Summary.totalIssues hs, hc, ?_,
    fun day => congrFun (congrArg Summary.activity hs) day,
    fun lang => congrFun (congrArg Summary.languages hs) lang⟩
  intro username
  rw [score_calculateContributorScores, score_calculateContributorScores, hc]

/-! ## Total commits against attributed commits -/

theorem sumCommits_eq (d : DashboardData) : sumCommits d = commitSum d.contributors := by
  unfold sumCommits commitSum
  rw [((Object.values_perm d.contributors).map (fun c => c.commits)).sum_eq, List.map_map]
  rfl

theorem commitSum_set (o : JsObject Contributor) (k : String) (v : Contributor)
    (h : o.get k = none) : commitSum (o.set k v) = commitSum o + v.commits := by
  induction o with
  | nil => simp [JsObject.set, commitSum]
  | cons p rest ih =>
    obtain ⟨k0, w⟩ := p
    by_cases h0 : k0 = k
    · simp [JsObject.get, h0] at h
    · simp only [JsObject.get, h0, if_false] at h
      have := ih h
      simp only [commitSum] at this
      simp [JsObject.set, h0, commitSum, this, Nat.add_assoc]

theorem commitSum_update (o : JsObject Contributor) (k : String)
    (g : Contributor → Contributor) (n : Nat) (hg : ∀ c, (g c).commits = c.commits + n) :
    commitSum (o.update k g) = commitSum o + (if (o.get k).isSome then n else 0) := by
  induction o with
  | nil => simp [JsObject.update, JsObject.get, commitSum]
  | cons p rest ih =>
    obtain ⟨k0, w⟩ := p
    by_cases h0 : k0 = k
    · simp [JsObject.update, JsObject.get, h0, commitSum, hg]
      omega
    · simp only [commitSum] at ih
      simp [JsObject.update, JsObject.get, h0, commitSum, ih, Nat.add_assoc]

theorem JsObject.get_isSome_of_key {α : Type} (o : JsObject α) (k : String) :
    (JsObject.get o k).isSome = true ↔ k ∈ o.map Prod.fst := by
  induction o with
  | nil => simp [JsObject.get]
  | cons p rest ih =>
    obtain ⟨k0, w⟩ := p
    by_cases h0 : k0 = k
    · simp [JsObject.get, h0]
    · have h1 : ¬ k = k0 := fun h => h0 h.symm
      simp [JsObject.get, h0, h1, ih]

theorem JsObject.keys_update {α : Type} (o : JsObject α) (k : String) (f : α → α) :
    (JsObject.update o k f).map Prod.fst = o.map Prod.fst := by
  induction o with
  | nil => rfl
  | cons p rest ih =>
    obtain ⟨k0, w⟩ := p
    by_cases h0 : k0 = k <;> simp [JsObject.update, h0, ih]

theorem JsObject.keys_set {α : Type} (o : JsObject α) (k : String) (v : α) (x : String)
    (hx : x ∈ (JsObject.set o k v).map Prod.fst) : x ∈ o.map Prod.fst ∨ x = k := by
  induction o with
  | nil =>
    simp [JsObject.set] at hx
    exact Or.inr hx
  | cons p rest ih =>
    obtain ⟨k0, w⟩ := p
    by_cases h0 : k0 = k
    · simp [JsObject.set, h0] at hx
      simp [h0]
      tauto
    · simp only [JsObject.set, h0, if_false, List.map_cons, List.mem_cons] at hx
      rcases hx with h | h
      · exact Or.inl (by simp [h])
      · rcases ih h with h1 | h1
        · exact Or.inl (by simp [h1])
        · exact Or.inr h1

theorem ownNamesOnly_iff (o : JsObject Contributor) :
    ownNamesOnly o ↔ ∀ x ∈ o.map Prod.fst, x ∉ Object.prototypeNames := by
  unfold ownNamesOnly
  constructor
  · intro h x hx
    obtain ⟨kv, hkv, rfl⟩ := List.mem_map.mp hx
    exact h kv hkv
  · intro h kv hkv
    exact h kv.1 (List.mem_map.mpr ⟨kv, hkv, rfl⟩)

theorem creditContributor_measures (o : JsObject Contributor) (login avatar : String)
    (g : Contributor → Contributor) (n : Nat) (hg : ∀ c, (g c).commits = c.commits + n)
    (hown : ownNamesOnly o) :
    ownNamesOnly (creditContributor o login avatar g)
    ∧ commitSum (creditContributor o login avatar g)
        = commitSum o + (if login ∈ Object.prototypeNames then 0 else n) := by
  unfold creditContributor addContributor JsObject.read
  cases hget : o.get login with
  | some c =>
    have hkey : login ∈ o.map Prod.fst :=
      (JsObject.get_isSome_of_key o login).mp (by simp [hget])
    have hno : login ∉ Object.prototypeNames := (ownNamesOnly_iff o).mp hown login hkey
    simp only [resetDashboardData, hget]
    refine ⟨?_, ?_⟩
    · rw [ownNamesOnly_iff, JsObject.keys_update]
      exact (ownNamesOnly_iff o).mp hown
    · rw [commitSum_update _ _ g n hg, if_neg hno]
      simp [hget]
  | none =>
    by_cases hp : login ∈ Object.prototypeNames
    · simp only [resetDashboardData, hget, hp, if_true]
      refine ⟨?_, ?_⟩
      · rw [ownNamesOnly_iff, JsObject.keys_update]
        exact (ownNamesOnly_iff o).mp hown
      · rw [commitSum_update _ _ g n hg]
        simp [hget]
    · simp only [resetDashboardData, hget, hp, if_false]
      refine ⟨?_, ?_⟩
      · rw [ownNamesOnly_iff, JsObject.keys_update]
        intro x hx
        rcases JsObject.keys_set o login _ x hx with h | h
        · exact (ownNamesOnly_iff o).mp hown x h
        · rw [h]; exact hp
      · rw [commitSum_update _ _ g n hg, JsObject.get_set, commitSum_set o login _ hget]
        simp

theorem foldl_measures {R : Type} (step : DashboardData → R → DashboardData) (gain : R → Nat)
    (h : ∀ d r, ownNamesOnly d.contributors →
      ownNamesOnly (step d r).contributors
      ∧ (step d r).totalCommits = d.totalCommits
      ∧ commitSum (step d r).contributors = commitSum d.contributors + gain r)
    (d : DashboardData) (hd : ownNamesOnly d.contributors) (rs : List R) :
    ownNamesOnly (rs.foldl step d).contributors
    ∧ (rs.foldl step d).totalCommits = d.totalCommits
    ∧ commitSum (rs.foldl step d).contributors
        = commitSum d.contributors + (rs.map gain).sum := by
  induction rs generalizing d with
  | nil => exact ⟨hd, rfl, by simp⟩
  | cons r rest ih =>
    obtain ⟨h1, h2, h3⟩ := h d r hd
    obtain ⟨i1, i2, i3⟩ := ih (step d r) h1
    refine ⟨i1, ?_, ?_⟩
    · rw [List.foldl_cons, i2, h2]
    · rw [List.foldl_cons, i3, h3, List.map_cons, List.sum_cons, Nat.add_assoc]

theorem processCommit_measures (d : DashboardData) (commit : Commit)
    (hd : ownNamesOnly d.contributors) :
    ownNamesOnly (processCommit d commit).contributors
    ∧ (processCommit d commit).totalCommits = d.totalCommits
    ∧ commitSum (processCommit d commit).contributors
        = commitSum d.contributors + attributed commit := by
  cases h : commit.author with
  | none => simp [processCommit, attributed, h, hd]
  | some a =>
    rw [processCommit_some d commit a h]
    have hc := creditContributor_measures d.contributors a.login a.avatar_url
      (fun c => { c with commits := c.commits + 1 }) 1 (fun c => rfl) hd
    exact ⟨hc.1, rfl, by rw [hc.2]; simp [attributed, h]⟩

theorem processReviewer_measures (d : DashboardData) (reviewer : User)
    (hd : ownNamesOnly d.contributors) :
    ownNamesOnly (processReviewer d reviewer).contributors
    ∧ (processReviewer d reviewer).totalCommits = d.totalCommits
    ∧ commitSum (processReviewer d reviewer).contributors = commitSum d.contributors + 0 := by
  rw [processReviewer_eq]
  have hc := creditContributor_measures d.contributors reviewer.login reviewer.avatar_url
    (fun c => { c with reviews := c.reviews + 1 }) 0 (fun c => rfl) hd
  exact ⟨hc.1, rfl, by rw [hc.2]; simp⟩

theorem processPullRequest_some (d : DashboardData) (pr : PullRequest) (u : User)
    (h : pr.user = some u) :
    processPullRequest d pr
      = (pr.requested_reviewers.getD []).foldl processReviewer
          { d with
            contributors := creditContributor d.contributors u.login u.avatar_url
              (fun c => { c with prs := c.prs + 1 }) } := by
  unfold processPullRequest creditContributor
  rw [h]
  simp only
  rw [← addContributor_contributors, addContributor_rest d]
  cases pr.requested_reviewers <;> rfl

theorem processPullRequest_measures (d : DashboardData) (pr : PullRequest)
    (hd : ownNamesOnly d.contributors) :
    ownNamesOnly (processPullRequest d pr).contributors
    ∧ (processPullRequest d pr).totalCommits = d.totalCommits
    ∧ commitSum (processPullRequest d pr).contributors = commitSum d.contributors + 0 := by
  cases h : pr.user with
  | none => simp [processPullRequest, h, hd]
  | some u =>
    rw [processPullRequest_some d pr u h]
    have hc := creditContributor_measures d.contributors u.login u.avatar_url
      (fun c => { c with prs := c.prs + 1 }) 0 (fun c => rfl) hd
    obtain ⟨f1, f2, f3⟩ := foldl_measures processReviewer (fun _ => 0)
      processReviewer_measures
      { d with
        contributors := creditContributor d.contributors u.login u.avatar_url
          (fun c => { c with prs := c.prs + 1 }) } hc.1 (pr.requested_reviewers.getD [])
    refine ⟨f1, f2, ?_⟩
    rw [f3]
    simp only [List.map_const', List.sum_replicate, smul_zero, Nat.add_zero]
    rw [hc.2]
    simp

theorem processIssue_measures (d : DashboardData) (issue : Issue)
    (hd : ownNamesOnly d.contributors) :
    ownNamesOnly (processIssue d issue).contributors
    ∧ (processIssue d issue).totalCommits = d.totalCommits
    ∧ commitSum (processIssue d issue).contributors = commitSum d.contributors + 0 := by
  cases h : issue.user with
  | none => simp [processIssue, h, hd]
  | some u =>
    rw [processIssue_some d issue u h]
    have hc := creditContributor_measures d.contributors u.login u.avatar_url
      (fun c => { c with issues := c.issues + 1 }) 0 (fun c => rfl) hd
    exact ⟨hc.1, rfl, by rw [hc.2]; simp⟩

theorem attributed_add_rest (commits : List Commit) :
    (commits.map attributed).sum + authorless commits + inheritedAuthors commits
      = commits.length := by
  unfold authorless inheritedAuthors
  induction commits with
  | nil => rfl
  | cons c rest ih =>
    cases h : c.author with
    | none => simp [List.filter_cons, h, attributed, hasInheritedAuthor]; omega
    | some a =>
      by_cases hp : a.login ∈ Object.prototypeNames
      · simp [List.filter_cons, h, attributed, hasInheritedAuthor, hp]; omega
      · simp [List.filter_cons, h, attributed, hasInheritedAuthor, hp]; omega

theorem run_measures (d : DashboardData) (call : Call) (hd : ownNamesOnly d.contributors) :
    ownNamesOnly (call.run d).contributors
    ∧ (call.run d).totalCommits + commitSum d.contributors
        = d.totalCommits + commitSum (call.run d).contributors + call.authorless
          + call.inheritedAuthors := by
  cases call with
  | processCommits commits =>
    simp only [Call.run, Call.authorless, Call.inheritedAuthors]
    unfold LeadershipBoard.processCommits
    obtain ⟨f1, f2, f3⟩ := foldl_measures processCommit attributed processCommit_measures
      { d with totalCommits := d.totalCommits + commits.length } hd commits
    refine ⟨f1, ?_⟩
    rw [f2, f3]
    have := attributed_add_rest commits
    simp only
    omega
  | processPullRequests prs =>
    simp only [Call.run, Call.authorless, Call.inheritedAuthors]
    unfold LeadershipBoard.processPullRequests
    simp only
    obtain ⟨f1, f2, f3⟩ := foldl_measures processPullRequest (fun _ => 0)
      processPullRequest_measures
      { d with
        totalPRs := d.totalPRs
          + (prs.filter (fun pr => pr.pull_request.isNone || pr.pull_request.isSome)).length }
      hd (prs.filter (fun pr => pr.pull_request.isNone || pr.pull_request.isSome))
    refine ⟨f1, ?_⟩
    rw [f2, f3]
    simp
  | processIssues issues =>
    simp only [Call.run, Call.authorless, Call.inheritedAuthors]
    unfold LeadershipBoard.processIssues
    simp only
    obtain ⟨f1, f2, f3⟩ := foldl_measures processIssue (fun _ => 0)
      processIssue_measures
      { d with
        totalIssues := d.totalIssues
          + (issues.filter (fun issue => issue.pull_request.isNone)).length }
      hd (issues.filter (fun issue => issue.pull_request.isNone))
    refine ⟨f1, ?_⟩
    rw [f2, f3]
    simp

theorem runCalls_measures (d : DashboardData) (calls : List Call)
    (hd : ownNamesOnly d.contributors) :
    (runCalls d calls).totalCommits + commitSum d.contributors
      = d.totalCommits + commitSum (runCalls d calls).contributors
        + (calls.map Call.authorless).sum + (calls.map Call.inheritedAuthors).sum := by
  induction calls generalizing d with
  | nil => simp [runCalls]
  | cons call rest ih =>
    obtain ⟨h0, h1⟩ := run_measures d call hd
    have h2 := ih (call.run d) h0
    simp only [runCalls, List.foldl_cons, List.map_cons, List.sum_cons] at h2 ⊢
    omega

/-- After any sequence of `processCommits`, `processPullRequests` and
`processIssues` calls on a freshly reset snapshot, `totalCommits` is the sum of
`commits` over all contributors, plus the number of commit records without an
author, plus the number of commit records whose author login is a name
inherited from `Object.prototype`; so it is never below that sum. -/
theorem totalCommits_eq (calls : List Call) :
    (runCalls resetDashboardData calls).totalCommits
        = sumCommits (runCalls resetDashboardData calls) + (calls.map Call.authorless).sum
          + (calls.map Call.inheritedAuthors).sum
    ∧ sumCommits (runCalls resetDashboardData calls)
        ≤ (runCalls resetDashboardData calls).totalCommits := by
  have hreset : ownNamesOnly resetDashboardData.contributors := by
    intro kv hkv
    simp [resetDashboardData] at hkv
  have h := runCalls_measures resetDashboardData calls hreset
  have h0 : commitSum resetDashboardData.contributors = 0 := rfl
  have ht : resetDashboardData.totalCommits = 0 := rfl
  rw [h0, ht, ← sumCommits_eq] at h
  constructor <;> omega

/-- C2, the code at the failing input: one commit record whose author is the
account `constructor` (so no record lacks an author) is counted in
`totalCommits`, yet no contributor is created and the sum of `commits` over all
contributors stays 0. -/
theorem processCommits_constructor_not_attributed :
    (∀ commit ∈ [commitBy "constructor"], commit.author ≠ none)
    ∧ (runCalls resetDashboardData
        [Call.processCommits [commitBy "constructor"]]).totalCommits = 1
    ∧ (runCalls resetDashboardData
        [Call.processCommits [commitBy "constructor"]]).contributors = []
    ∧ sumCommits (runCalls resetDashboardData
        [Call.processCommits [commitBy "constructor"]]) = 0 := by
  decide

/-! ## Pagination -/

theorem fetchPaginatedLoop_spec {α : Type} (fetch : Fetch (List α)) (url : String)
    (headers : Headers) (maxPages fuel page : Nat) (results : List α) (requests : List String)
    (hfuel : page + fuel = maxPages + 1) :
    ∃ n : Nat, page + n ≤ maxPages + 1
      ∧ (fetchPaginatedLoop fetch url headers maxPages fuel page results requests).requests
          = requests ++ (List.range' page n).map (pageUrl url)
      ∧ (∀ u ∈ ((List.range' page n).map (pageUrl url)).dropLast,
          continuesAt fetch headers u = true)
      ∧ (page + n ≤ maxPages →
          ∃ u, ((List.range' page n).map (pageUrl url)).getLast? = some u
            ∧ continuesAt fetch headers u = false)
      ∧ (fetchPaginatedLoop fetch url headers maxPages fuel page results requests).result
          = match (((List.range' page n).map (pageUrl url)).getLast?).bind
              (rejection fetch headers) with
            | some message => .error message
            | none => .ok (results
                ++ ((List.range' page n).map (pageUrl url)).flatMap (recordsAt fetch headers)) := by
  induction fuel generalizing page results requests with
  | zero =>
    refine ⟨0, by omega, ?_, ?_, ?_, ?_⟩
    · simp [fetchPaginatedLoop]
    · simp
    · intro h; omega
    · simp [fetchPaginatedLoop]
  | succ fuel ih =>
    have hpage : page ≤ maxPages := by omega
    unfold fetchPaginatedLoop
    rw [if_pos hpage]
    cases hf : fetch (pageUrl url page) headers with
    | rejected message =>
      refine ⟨1, by omega, ?_, ?_, ?_, ?_⟩
      · simp
      · simp
      · intro _
        exact ⟨pageUrl url page, by simp, by simp [continuesAt, hf]⟩
      · simp [rejection, hf]
    | response response =>
      by_cases hok : response.ok = true
      · by_cases hlen : response.json.length = 0
        · refine ⟨1, by omega, ?_, ?_, ?_, ?_⟩
          · simp [hok, hlen]
          · simp
          · intro _
            exact ⟨pageUrl url page, by simp, by simp [continuesAt, hf, hlen]⟩
          · have hnil : response.json = [] := List.length_eq_zero.mp hlen
            simp [hok, hlen, rejection, recordsAt, hf, hnil]
        · obtain ⟨n, hn, hreq, hcont, hstop, hres⟩ :=
            ih (page + 1) (results ++ response.json) (requests ++ [pageUrl url page])
              (by omega)
          have hcur : continuesAt fetch headers (pageUrl url page) = true := by
            simp [continuesAt, hf, hok, hlen]
          refine ⟨n + 1, by omega, ?_, ?_, ?_, ?_⟩
          · simp only [hok, hlen, Bool.not_true, Bool.false_eq_true, if_false]
            rw [hreq, List.range'_succ]
            simp
          · rw [List.range'_succ, List.map_cons]
            cases hrest : (List.range' (page + 1) n).map (pageUrl url) with
            | nil => simp
            | cons b rest =>
              rw [hrest] at hcont
              intro u hu
              rw [List.dropLast_cons₂, List.mem_cons] at hu
              rcases hu with rfl | hu
              · exact hcur
              · exact hcont u hu
          · intro hle
            obtain ⟨u, hu, hnot⟩ := hstop (by omega)
            refine ⟨u, ?_, hnot⟩
            rw [List.range'_succ, List.map_cons]
            cases hrest : (List.range' (page + 1) n).map (pageUrl url) with
            | nil => rw [hrest] at hu; simp at hu
            | cons b rest =>
              rw [hrest] at hu
              rw [List.getLast?_cons_cons]
              exact hu
          · simp only [hok, hlen, Bool.not_true, Bool.false_eq_true, if_false]
            rw [hres, List.range'_succ, List.map_cons]
            cases hrest : (List.range' (page + 1) n).map (pageUrl url) with
            | nil => simp [rejection, recordsAt, hf, hok]
            | cons b rest =>
              rw [List.getLast?_cons_cons]
              simp [recordsAt, hf, hok]
      · refine ⟨1, by omega, ?_, ?_, ?_, ?_⟩
        · simp [hok]
        · simp
        · intro _
          exact ⟨pageUrl url page, by simp, by simp [continuesAt, hf, hok]⟩
        · simp [hok, rejection, recordsAt, hf]

/-- C3: `fetchPaginated` requests the pages 1, 2, ... in order and at most
`maxPages` of them; every request but the last brought a successful, non-empty
page, and when fewer than `maxPages` were issued the last one did not (so
nothing is requested after the first page that is non-successful or empty);
it returns the records of the requested pages concatenated in page order,
nothing dropped, merged or reordered (a non-successful page has none), unless
the last request was rejected, whose error it throws. -/
theorem fetchPaginated_spec {α : Type} (fetch : Fetch (List α)) (url : String)
    (headers : Headers) (maxPages : Nat) :
    (fetchPaginated fetch url headers maxPages).requests
        = (List.range' 1 (fetchPaginated fetch url headers maxPages).requests.length).map
            (pageUrl url)
    ∧ (fetchPaginated fetch url headers maxPages).requests.length ≤ maxPages
    ∧ (∀ u ∈ (fetchPaginated fetch url headers maxPages).requests.dropLast,
        continuesAt fetch headers u = true)
    ∧ ((fetchPaginated fetch url headers maxPages).requests.length < maxPages →
        ∃ u, (fetchPaginated fetch url headers maxPages).requests.getLast? = some u
          ∧ continuesAt fetch headers u = false)
    ∧ (fetchPaginated fetch url headers maxPages).result
        = match ((fetchPaginated fetch url headers maxPages).requests.getLast?).bind
            (rejection fetch headers) with
          | some message => .error message
          | none => .ok ((fetchPaginated fetch url headers maxPages).requests.flatMap
              (recordsAt fetch headers)) := by
  obtain ⟨n, hn, hreq, hcont, hstop, hres⟩ :=
    fetchPaginatedLoop_spec fetch url headers maxPages maxPages 1 [] [] (by omega)
  have hreq1 : (fetchPaginated fetch url headers maxPages).requests
      = (List.range' 1 n).map (pageUrl url) := by
    unfold fetchPaginated
    rw [hreq, List.nil_append]
  have hlen : (fetchPaginated fetch url headers maxPages).requests.length = n := by
    rw [hreq1, List.length_map, List.length_range']
  refine ⟨?_, ?_, ?_, ?_, ?_⟩
  · rw [hlen, hreq1]
  · rw [hlen]; omega
  · rw [hreq1]; exact hcont
  · rw [hlen, hreq1]
    intro h
    exact hstop (by omega)
  · rw [hreq1]
    unfold fetchPaginated
    rw [hres, List.nil_append]

/-- C3, witness: with `maxPages` 5 the third page is empty and ends the loop. -/
theorem fetchPaginated_spec_witness :
    (fetchPaginated threePages "list?x=1" [] 5).requests.length < 5
    ∧ (fetchPaginated threePages "list?x=1" [] 5).requests
        = ["list?x=1&per_page=100&page=1", "list?x=1&per_page=100&page=2",
            "list?x=1&per_page=100&page=3"]
    ∧ (fetchPaginated threePages "list?x=1" [] 5).result = .ok [1, 2, 3]
    ∧ ∃ u, (fetchPaginated threePages "list?x=1" [] 5).requests.getLast? = some u
        ∧ continuesAt threePages [] u = false :=
  ⟨by decide, by decide, rfl,
    (fetchPaginated_spec threePages "list?x=1" [] 5).2.2.2.1 (by decide)⟩

/-! ## Failures: per repository and at discovery -/

theorem fetchAllRepositories_eq (net : Network) (org token sinceISO : String)
    (d : DashboardData) (repos : List String) :
    fetchAllRepositories net org token sinceISO d repos
      = (repos.foldl (fun x repoName =>
          (fetchRepositoryData net x org repoName token sinceISO).1) d, none) := by
  induction repos generalizing d with
  | nil => rfl
  | cons repoName rest ih =>
    unfold fetchAllRepositories
    rw [List.foldl_cons, ← ih]
    unfold fetchRepositoryData
    cases htry : fetchRepositoryDataTry net d org repoName token sinceISO with
    | mk d1 thrown => cases thrown <;> rfl

theorem fetchRepositoryData_of_commits_error (net : Network) (d : DashboardData)
    (org repo token sinceISO message : String)
    (h : (fetchPaginated net.commits (commitsUrl org repo sinceISO) (createHeaders token)
        defaultMaxPages).result = .error message) :
    fetchRepositoryData net d org repo token sinceISO = (d, none) := by
  unfold fetchRepositoryData fetchRepositoryDataTry
  simp only [h]

/-- C9: `fetchRepositoryData` never throws, whatever fails inside it, and the
loop of `loadDashboard` goes through every repository; a repository whose
commit fetch raises a transport error leaves the snapshot as it found it, so a
run over the repositories `before ++ repo :: after` with such a `repo` ends
with the snapshot of a run over `before ++ after`, scores computed and the
dashboard rendered from it, no error shown. -/
theorem fetchRepositoryData_isolates_failure (net : Network) (org token sinceISO : String) :
    (∀ (d : DashboardData) (repo : String),
        (fetchRepositoryData net d org repo token sinceISO).2 = none)
    ∧ (∀ (d : DashboardData) (repos : List String),
        fetchAllRepositories net org token sinceISO d repos
          = (repos.foldl (fun x repoName =>
              (fetchRepositoryData net x org repoName token sinceISO).1) d, none))
    ∧ (∀ (d : DashboardData) (repo message : String),
        (fetchPaginated net.commits (commitsUrl org repo sinceISO) (createHeaders token)
            defaultMaxPages).result = .error message →
        fetchRepositoryData net d org repo token sinceISO = (d, none))
    ∧ (∀ (d : DashboardData) (before after : List String) (repo message : String),
        (fetchPaginated net.commits (commitsUrl org repo sinceISO) (createHeaders token)
            defaultMaxPages).result = .error message →
        fetchAllRepositories net org token sinceISO d (before ++ repo :: after)
          = fetchAllRepositories net org token sinceISO d (before ++ after))
    ∧ (∀ (app : App) (before after : List String) (repo message : String),
        org ≠ "" →
        fetchRepositories net org token = .ok (before ++ repo :: after) →
        (fetchPaginated net.commits (commitsUrl org repo sinceISO) (createHeaders token)
            defaultMaxPages).result = .error message →
        loadDashboard net app token org "" sinceISO
          = { dashboardData := calculateContributorScores
                (fetchAllRepositories net org token sinceISO resetDashboardData
                  (before ++ after)).1,
              dashboard := some (renderDashboard (calculateContributorScores
                (fetchAllRepositories net org token sinceISO resetDashboardData
                  (before ++ after)).1)),
              error := none }) := by
  have hskip : ∀ (d : DashboardData) (before after : List String) (repo message : String),
      (fetchPaginated net.commits (commitsUrl org repo sinceISO) (createHeaders token)
          defaultMaxPages).result = .error message →
      fetchAllRepositories net org token sinceISO d (before ++ repo :: after)
        = fetchAllRepositories net org token sinceISO d (before ++ after) := by
    intro d before after repo message h
    rw [fetchAllRepositories_eq, fetchAllRepositories_eq, List.foldl_append, List.foldl_append,
      List.foldl_cons, fetchRepositoryData_of_commits_error net _ org repo token sinceISO message h]
  refine ⟨?_, fetchAllRepositories_eq net org token sinceISO, ?_, hskip, ?_⟩
  · intro d repo
    unfold fetchRepositoryData
    cases htry : fetchRepositoryDataTry net d org repo token sinceISO with
    | mk d1 thrown => cases thrown <;> rfl
  · intro d repo message h
    exact fetchRepositoryData_of_commits_error net d org repo token sinceISO message h
  · intro app before after repo message horg hrepos h
    unfold loadDashboard
    rw [if_neg horg]
    simp only [ne_eq, not_true_eq_false, if_false, hrepos]
    have hlen : ¬ (before ++ repo :: after).length = 0 := by simp
    rw [if_neg hlen, hskip resetDashboardData before after repo message h,
      fetchAllRepositories_eq]

/-- C9, witness: of the repositories `a`, `b`, `c` the commit fetch of `b` is
rejected; the run completes with the commits of `a` and `c`. -/
theorem fetchRepositoryData_isolates_failure_witness :
    fetchRepositories flakyNetwork "org" "" = .ok (["a"] ++ "b" :: ["c"])
    ∧ (fetchPaginated flakyNetwork.commits (commitsUrl "org" "b" "2024-01-01T00:00:00.000Z")
        (createHeaders "") defaultMaxPages).result = .error "Failed to fetch"
    ∧ (loadDashboard flakyNetwork loadedApp "" "org" "" "2024-01-01T00:00:00.000Z").error = none
    ∧ (loadDashboard flakyNetwork loadedApp "" "org" ""
        "2024-01-01T00:00:00.000Z").dashboardData.contributors.map Prod.fst = ["alice", "carol"]
    ∧ loadDashboard flakyNetwork loadedApp "" "org" "" "2024-01-01T00:00:00.000Z"
        = { dashboardData := calculateContributorScores
              (fetchAllRepositories flakyNetwork "org" "" "2024-01-01T00:00:00.000Z"
                resetDashboardData (["a"] ++ ["c"])).1,
            dashboard := some (renderDashboard (calculateContributorScores
              (fetchAllRepositories flakyNetwork "org" "" "2024-01-01T00:00:00.000Z"
                resetDashboardData (["a"] ++ ["c"])).1)),
            error := none } :=
  ⟨rfl, rfl, by decide, by decide,
    (fetchRepositoryData_isolates_failure flakyNetwork "org" ""
      "2024-01-01T00:00:00.000Z").2.2.2.2 loadedApp ["a"] ["c"] "b" "Failed to fetch"
      (by decide) rfl rfl⟩

/-- C10: for the response the repository list request brings, `fetchRepositories`
fails exactly when the response is non-successful: with the `not found` error
on status 404, the `rate limit` error on status 403, the generic error naming
the status on any other non-successful status; on a successful response it
returns the names of the first `min(10, n)` repositories in the order
received.  (A rejected request, which brings no response, fails with the
transport error.)  When discovery fails, `loadDashboard` keeps the snapshot and
the rendered dashboard as they were and shows the error. -/
theorem fetchRepositories_spec (net : Network) (org token : String) :
    (∀ response : Response (List Repository),
        net.repos (reposUrl org) (createHeaders token) = .response response →
        ((∃ message, fetchRepositories net org token = .error message) ↔ response.ok = false)
        ∧ (response.status = 404 →
            fetchRepositories net org token = .error "Organization or user not found")
        ∧ (response.status = 403 →
            fetchRepositories net org token
              = .error "API rate limit exceeded. Please provide a GitHub token.")
        ∧ (response.ok = false → response.status ≠ 404 → response.status ≠ 403 →
            fetchRepositories net org token
              = .error ("GitHub API error: " ++ toString response.status))
        ∧ (response.ok = true →
            fetchRepositories net org token
                = .ok ((response.json.map (fun r => r.name)).take 10)
            ∧ ((response.json.map (fun r => r.name)).take 10).length
                = min 10 response.json.length))
    ∧ (∀ message : String,
        net.repos (reposUrl org) (createHeaders token) = .rejected message →
        fetchRepositories net org token = .error message)
    ∧ (∀ (app : App) (sinceISO message : String),
        org ≠ "" →
        fetchRepositories net org token = .error message →
        (loadDashboard net app token org "" sinceISO).dashboardData = app.dashboardData
        ∧ (loadDashboard net app token org "" sinceISO).dashboard = app.dashboard
        ∧ (loadDashboard net app token org "" sinceISO).error
            = some (if message ≠ "" then message
                else "Failed to load GitHub data. Please check your credentials and try again."))
    := by
  refine ⟨?_, ?_, ?_⟩
  · intro response hresp
    have h404 : response.status = 404 → response.ok = false := by
      intro h; simp [Response.ok, h]
    have h403 : response.status = 403 → response.ok = false := by
      intro h; simp [Response.ok, h]
    refine ⟨?_, ?_, ?_, ?_, ?_⟩
    · unfold fetchRepositories
      simp only [hresp]
      cases hok : response.ok with
      | true => simp
      | false =>
        simp only [Bool.not_false, if_true]
        refine ⟨fun _ => trivial, fun _ => ?_⟩
        split
        · exact ⟨_, rfl⟩
        · split
          · exact ⟨_, rfl⟩
          · exact ⟨_, rfl⟩
    · intro h
      unfold fetchRepositories
      simp [hresp, h404 h, h]
    · intro h
      unfold fetchRepositories
      simp [hresp, h403 h, h]
    · intro hok hn404 hn403
      unfold fetchRepositories
      simp [hresp, hok, hn404, hn403]
    · intro hok
      refine ⟨?_, ?_⟩
      · unfold fetchRepositories
        simp [hresp, hok]
      · rw [List.length_take, List.length_map]
  · intro message hrej
    unfold fetchRepositories
    simp [hrej]
  · intro app sinceISO message horg hfail
    unfold loadDashboard
    rw [if_neg horg]
    simp only [ne_eq, not_true_eq_false, if_false, hfail]
    exact ⟨rfl, rfl, rfl⟩

/-- C10, witness: the repository list answers 404 while an earlier dashboard is shown. -/
theorem fetchRepositories_spec_witness :
    (statusNetwork 404).repos (reposUrl "nobody") (createHeaders "")
        = .response { status := 404, json := [] }
    ∧ fetchRepositories (statusNetwork 404) "nobody" ""
        = .error "Organization or user not found"
    ∧ (loadDashboard (statusNetwork 404) loadedApp "" "nobody" ""
        "2024-01-01T00:00:00.000Z").dashboardData = loadedApp.dashboardData
    ∧ (loadDashboard (statusNetwork 404) loadedApp "" "nobody" ""
        "2024-01-01T00:00:00.000Z").dashboard = loadedApp.dashboard :=
  ⟨rfl,
    ((fetchRepositories_spec (statusNetwork 404) "nobody" "").1
      { status := 404, json := [] } rfl).2.1 rfl,
    ((fetchRepositories_spec (statusNetwork 404) "nobody" "").2.2 loadedApp
      "2024-01-01T00:00:00.000Z" "Organization or user not found" (by decide) rfl).1,
    ((fetchRepositories_spec (statusNetwork 404) "nobody" "").2.2 loadedApp
      "2024-01-01T00:00:00.000Z" "Organization or user not found" (by decide) rfl).2.1⟩

end LeadershipBoard
